import Mathlib

set_option maxRecDepth 8192
set_option linter.unnecessarySeqFocus false
set_option linter.unreachableTactic false
set_option linter.unusedTactic false

/-!
Verification of the livestatus client library.  The development models the
LQL query builder and its sanitisers, the fixed16 response-header parser,
the one-off executor, the connectivity-event serialisation, and — with an
explicit store — the Go slice/pointer semantics underlying work-item
snapshots.  Go strings are modelled as lists of unicode code points.
-/

namespace Livestatus

/-- Go strings are modelled as lists of unicode code points. -/
abbrev Str := List Char

/-- Convert a Lean string literal to the model representation. -/
def str (s : String) : Str := s.data

/-- The White_Space property used by Go's `unicode.IsSpace` (and hence by
`strings.TrimSpace`). -/
def isUniSpace (c : Char) : Bool :=
  let n := c.toNat
  (9 ≤ n && n ≤ 13) || n == 32 || n == 0x85 || n == 0xA0 || n == 0x1680 ||
  (0x2000 ≤ n && n ≤ 0x200A) || n == 0x2028 || n == 0x2029 ||
  n == 0x202F || n == 0x205F || n == 0x3000

/-- Model of Go `strings.TrimLeft(s, whitespace)` as used by `TrimSpace`. -/
def trimLeft (s : Str) : Str := s.dropWhile isUniSpace

/-- Model of the right-trimming half of `strings.TrimSpace`. -/
def trimRight (s : Str) : Str := (s.reverse.dropWhile isUniSpace).reverse

/-- Model of Go `strings.TrimSpace`. -/
def trimSpace (s : Str) : Str := trimLeft (trimRight s)

/-- Model of Go `strings.ReplaceAll(s, string(a), string(b))` for single
characters. -/
def replaceChar (a b : Char) (s : Str) : Str :=
  s.map (fun x => if x = a then b else x)

/-- Model of Go `strings.ReplaceAll(s, string(a), "")` for a single
character. -/
def removeChar (a : Char) (s : Str) : Str :=
  s.filter (fun x => x ≠ a)

/-- Model of Go `strings.TrimSuffix(key, ":")`: remove one trailing colon
when present. -/
def trimSuffixColon (s : Str) : Str :=
  if s.getLast? = some ':' then s.dropLast else s

/-- safeToken removes CR/LF and trims, as in the source: replace CR with a
space, then LF with a space, then `TrimSpace`. -/
def safeToken (s : Str) : Str :=
  trimSpace (replaceChar '\n' ' ' (replaceChar '\r' ' ' s))

/-- safeValue removes NUL bytes and replaces CR and LF with spaces, without
trimming, as in the source. -/
def safeValue (s : Str) : Str :=
  replaceChar '\n' ' ' (replaceChar '\r' ' ' (removeChar '\x00' s))

/-- safeTokens maps `safeToken` over a list, as in the source. -/
def safeTokens (l : List Str) : List Str := l.map safeToken

/-- Model of Go `strings.Join(elems, sep)`. -/
def joinSep (sep : Str) : List Str → Str
  | [] => []
  | [x] => x
  | x :: y :: xs => x ++ sep ++ joinSep sep (y :: xs)

/-- Model of Go `strings.Split(s, "\n")`. -/
def splitNL : Str → List Str
  | [] => [[]]
  | c :: rest =>
    if c = '\n' then [] :: splitNL rest
    else
      match splitNL rest with
      | [] => [[c]]
      | h :: t => (c :: h) :: t

/-- Decimal digit characters, used to render numbers the way `fmt.Sprintf`
with `%d` does. -/
def digitChar : Nat → Char
  | 0 => '0'
  | 1 => '1'
  | 2 => '2'
  | 3 => '3'
  | 4 => '4'
  | 5 => '5'
  | 6 => '6'
  | 7 => '7'
  | 8 => '8'
  | 9 => '9'
  | _ + 10 => '0'

/-- Little-endian decimal digits with explicit fuel, so that the kernel can
evaluate it. -/
def natDecAux : Nat → Nat → Str
  | 0, _ => []
  | fuel + 1, n =>
    if n = 0 then [] else digitChar (n % 10) :: natDecAux fuel (n / 10)

/-- Decimal rendering of a natural number (most significant digit first). -/
def natDec (n : Nat) : Str :=
  if n = 0 then ['0'] else (natDecAux n n).reverse

/-- Decimal rendering of an integer, as `fmt.Sprintf("%d", n)` produces. -/
def intDec (i : Int) : Str :=
  if i < 0 then '-' :: natDec i.natAbs else natDec i.toNat

/-- LiveStatusQuery builds a single LQL request; fields as in the Go
struct (`table`, `columns`, `filters`, `headers`, `outputFormat`,
`columnHdrs`). -/
structure LiveStatusQuery where
  table : Str
  columns : List Str
  filters : List Str
  headers : List Str
  outputFormat : Str
  columnHdrs : Option Bool
deriving Repr, DecidableEq

/-- NewLiveStatusQuery constructs a new builder (the defensive copy of the
column slice is identity on immutable lists). -/
def newLiveStatusQuery (table : Str) (columns : List Str) : LiveStatusQuery :=
  ⟨table, columns, [], [], [], none⟩

namespace LiveStatusQuery

/-- Columns replaces the column list. -/
def Columns (q : LiveStatusQuery) (cols : List Str) : LiveStatusQuery :=
  { q with columns := cols }

/-- AddColumns appends to the column list. -/
def AddColumns (q : LiveStatusQuery) (cols : List Str) : LiveStatusQuery :=
  { q with columns := q.columns ++ cols }

/-- OutputFormat sets the desired format. -/
def OutputFormat (q : LiveStatusQuery) (fmt : Str) : LiveStatusQuery :=
  { q with outputFormat := fmt }

/-- ColumnHeaders toggles "ColumnHeaders: on/off". -/
def ColumnHeaders (q : LiveStatusQuery) (b : Bool) : LiveStatusQuery :=
  { q with columnHdrs := some b }

/-- The rendered filter line `Filter: <col> <op> <val>` with sanitisation
as in the source. -/
def mkFilterLine (column op value : Str) : Str :=
  str "Filter: " ++ safeToken column ++ [' '] ++ op ++ [' '] ++ safeValue value

/-- Filter appends a generic filter line. -/
def Filter (q : LiveStatusQuery) (column op value : Str) : LiveStatusQuery :=
  { q with filters := q.filters ++ [mkFilterLine column op value] }

/-- FilterEqual appends `Filter: col = value`. -/
def FilterEqual (q : LiveStatusQuery) (column value : Str) : LiveStatusQuery :=
  q.Filter column (str "=") value

/-- FilterRegexI appends `Filter: col ~~ pattern`. -/
def FilterRegexI (q : LiveStatusQuery) (column pattern : Str) : LiveStatusQuery :=
  q.Filter column (str "~~") pattern

/-- Or appends the boolean glue line `Or: n`. -/
def Or (q : LiveStatusQuery) (n : Int) : LiveStatusQuery :=
  { q with filters := q.filters ++ [str "Or: " ++ intDec n] }

/-- And appends the boolean glue line `And: n`. -/
def And (q : LiveStatusQuery) (n : Int) : LiveStatusQuery :=
  { q with filters := q.filters ++ [str "And: " ++ intDec n] }

/-- Negate appends `Negate:`. -/
def Negate (q : LiveStatusQuery) : LiveStatusQuery :=
  { q with filters := q.filters ++ [str "Negate:"] }

/-- Limit appends `Limit: n`. -/
def Limit (q : LiveStatusQuery) (n : Int) : LiveStatusQuery :=
  { q with headers := q.headers ++ [str "Limit: " ++ intDec n] }

/-- WaitObject appends `WaitObject: <safeValue v>`. -/
def WaitObject (q : LiveStatusQuery) (object : Str) : LiveStatusQuery :=
  { q with headers := q.headers ++ [str "WaitObject: " ++ safeValue object] }

/-- WaitTrigger appends `WaitTrigger: <safeToken t>`. -/
def WaitTrigger (q : LiveStatusQuery) (trigger : Str) : LiveStatusQuery :=
  { q with headers := q.headers ++ [str "WaitTrigger: " ++ safeToken trigger] }

/-- WaitCondition appends `WaitCondition: <safeValue c>`. -/
def WaitCondition (q : LiveStatusQuery) (cond : Str) : LiveStatusQuery :=
  { q with headers := q.headers ++ [str "WaitCondition: " ++ safeValue cond] }

/-- WaitTimeout appends `WaitTimeout: ms`. -/
def WaitTimeout (q : LiveStatusQuery) (ms : Int) : LiveStatusQuery :=
  { q with headers := q.headers ++ [str "WaitTimeout: " ++ intDec ms] }

/-- KeepAlive appends `KeepAlive: on` or `KeepAlive: off`. -/
def KeepAlive (q : LiveStatusQuery) (b : Bool) : LiveStatusQuery :=
  if b then { q with headers := q.headers ++ [str "KeepAlive: on"] }
  else { q with headers := q.headers ++ [str "KeepAlive: off"] }

/-- ResponseHeaderFixed16 appends `ResponseHeader: fixed16`. -/
def ResponseHeaderFixed16 (q : LiveStatusQuery) : LiveStatusQuery :=
  { q with headers := q.headers ++ [str "ResponseHeader: fixed16"] }

/-- ResponseHeaderOff appends `ResponseHeader: off`. -/
def ResponseHeaderOff (q : LiveStatusQuery) : LiveStatusQuery :=
  { q with headers := q.headers ++ [str "ResponseHeader: off"] }

/-- Localtime appends `Localtime: ts`. -/
def Localtime (q : LiveStatusQuery) (ts : Int) : LiveStatusQuery :=
  { q with headers := q.headers ++ [str "Localtime: " ++ intDec ts] }

/-- Header appends a generic header line after key normalisation, as in the
source: strip one trailing colon, trim the key, drop empty keys, render an
empty value as `Key:` with no space. -/
def Header (q : LiveStatusQuery) (key value : Str) : LiveStatusQuery :=
  let key := trimSpace (trimSuffixColon key)
  if key = [] then q
  else if value = [] then { q with headers := q.headers ++ [key ++ [':']] }
  else { q with headers := q.headers ++ [key ++ str ": " ++ safeValue value] }

/-- Build assembles the final LQL request, appending an empty trailing
element and joining with newlines, exactly as the source does. -/
def Build (q : LiveStatusQuery) : Str :=
  let lines := [str "GET " ++ q.table]
  let lines :=
    if q.columns.length > 0 then
      lines ++ [str "Columns: " ++ joinSep [' '] (safeTokens q.columns)]
    else lines
  let lines := lines ++ q.filters
  let lines :=
    match q.columnHdrs with
    | some true => lines ++ [str "ColumnHeaders: on"]
    | some false => lines ++ [str "ColumnHeaders: off"]
    | none => lines
  let lines := lines ++ q.headers
  let lines :=
    if q.outputFormat ≠ [] then
      lines ++ [str "OutputFormat: " ++ q.outputFormat]
    else lines
  joinSep ['\n'] (lines ++ [[]])

end LiveStatusQuery

example :
    (((newLiveStatusQuery (str "hosts") [str "name", str "state"]).OutputFormat
      (str "json")).Limit 10).Build =
    str "GET hosts\nColumns: name state\nLimit: 10\nOutputFormat: json\n" := by
  decide

example :
    ((((((newLiveStatusQuery (str "services") [str "host_name"]).FilterEqual
      (str "host_name") (str "bad\r\nname")).Header (str "Stats:    ")
      (str "state = 2")).Header (str "Localtime") (str "1724000000\n")).Header
      (str "WeirdEmpty") []).OutputFormat (str "csv")).Build =
    str "GET services\nColumns: host_name\nFilter: host_name = bad  name\nStats:: state = 2\nLocaltime: 1724000000 \nWeirdEmpty:\nOutputFormat: csv\n" := by
  decide

/-! ### Fixed16 header parsing (src/v1/connection.go) -/

/-- Characters accepted as decimal digits by `strconv`. -/
def isDigitChar (c : Char) : Bool := 48 ≤ c.toNat && c.toNat ≤ 57

/-- Numeric value of a digit character. -/
def digVal (c : Char) : Nat := c.toNat - 48

/-- Value of a big-endian digit string. -/
def decValue (l : Str) : Nat := l.foldl (fun a c => 10 * a + digVal c) 0

/-- Sign handling of `strconv.ParseInt`: an optional leading `+` or `-`. -/
def splitSign : Str → Bool × Str
  | '+' :: r => (false, r)
  | '-' :: r => (true, r)
  | r => (false, r)

/-- Model of Go `strconv.Atoi` (for the default 64-bit int): optional sign,
then a non-empty run of decimal digits; out-of-range values are errors. -/
def atoi (s : Str) : Option Int :=
  let p := splitSign s
  if p.2 = [] then none
  else if p.2.all isDigitChar then
    let v : Int := (decValue p.2 : Nat)
    let v := if p.1 then -v else v
    if v < -(2 ^ 63) ∨ (2 ^ 63 - 1 : Int) < v then none else some v
  else none

/-- parseFixed16Header parses the 16-byte fixed16 header: status code from
bytes 0..2 (trimmed + atoi) and payload length from bytes 4..14 (trimmed +
atoi); bytes 3 and 15 are not enforced, exactly as in the source. -/
def parseFixed16Header (hdr : Str) : Option (Int × Int) :=
  if hdr.length ≠ 16 then none
  else
    match atoi (trimSpace (hdr.take 3)), atoi (trimSpace ((hdr.drop 4).take 11)) with
    | some code, some length => some (code, length)
    | _, _ => none

/-- Left-pad a string with spaces to the given width. -/
def padLeftSpaces (w : Nat) (s : Str) : Str :=
  List.replicate (w - s.length) ' ' ++ s

/-- Modelled from the spec: the repository contains no fixed16 encoder, only
the parser; §4.3 of the spec describes the canonical encoding as a
3-character ASCII decimal status code in bytes 0..2, a space at byte 3, the
length as ASCII decimal left-padded with spaces in bytes 4..14, and a
newline at byte 15. -/
def encodeFixed16 (code length : Nat) : Str :=
  padLeftSpaces 3 (natDec code) ++ [' '] ++ padLeftSpaces 11 (natDec length) ++ ['\n']

example : parseFixed16Header (str "200 00000000012\n") = some (200, 12) := by decide
example : parseFixed16Header (encodeFixed16 404 5) = some (404, 5) := by decide

/-! ### One-off executor (src/v1/livestatus_oneoff.go)

The network is abstracted as the outcome of the three I/O phases the
function performs in order: connect, send, read. -/

/-- LiveStatusConfig models the Go configuration struct; durations are in
nanoseconds. -/
structure LiveStatusConfig where
  address : Str
  connectTimeout : Int
  readTimeout : Int
  writeTimeout : Int
  maxBodyBytes : Int
  useTLS : Bool
  insecureSkipVerify : Bool
  caFile : Str
  certFile : Str
  keyFile : Str
deriving Repr, DecidableEq

/-- Result models the Go `Result` struct: status code, raw body bytes and an
optional error message. -/
structure Result where
  statusCode : Int
  data : Option Str
  error : Option Str
deriving Repr, DecidableEq

/-- Outcomes of the three I/O phases of `QueryOneOff`, in program order. -/
structure OneOffNet where
  connectRes : Except Str Unit
  sendRes : Except Str Unit
  readRes : Except Str Str
deriving Repr

/-- QueryOneOff mirrors the Go control flow: a nil config is the only
function-level error; each phase failure yields `Result{500, nil, err}` and
a successful read yields `Result{200, body, nil}`. -/
def QueryOneOff (config : Option LiveStatusConfig) (net : OneOffNet) :
    Except Str Result :=
  match config with
  | none => .error (str "config cannot be nil")
  | some _ =>
    match net.connectRes with
    | .error e => .ok ⟨500, none, some (str "failed to connect to livestatus: " ++ e)⟩
    | .ok _ =>
      match net.sendRes with
      | .error e => .ok ⟨500, none, some (str "failed to send query: " ++ e)⟩
      | .ok _ =>
        match net.readRes with
        | .error e => .ok ⟨500, none, some (str "failed to read response: " ++ e)⟩
        | .ok body => .ok ⟨200, some body, none⟩

/-- All three phases of a one-off query succeeded. -/
def OneOffNet.allOk (net : OneOffNet) : Bool :=
  match net.connectRes, net.sendRes, net.readRes with
  | .ok _, .ok _, .ok _ => true
  | _, _, _ => false

/-! ### Connectivity events (src/v1/events.go)

`ConnectivityState` is an integer type in Go, so it is modelled as `Int`
with the five named constants. `time.Time` is kept as its rendered JSON
string, and `Backoff` as a duration in nanoseconds; `Duration.String()`
always returns a non-empty string, so recording the raw duration preserves
the `omitempty` decision exactly. -/

def StateUnknown : Int := 0
def StateConnected : Int := 1
def StateDisconnected : Int := 2
def StateRetrying : Int := 3
def StateShutdown : Int := 4

/-- ConnectivityState.String from the source: named lower-case strings for
the four live states, `unknown_state_<d>` for everything else. -/
def stateString (s : Int) : Str :=
  if s = StateConnected then str "connected"
  else if s = StateDisconnected then str "disconnected"
  else if s = StateRetrying then str "retrying"
  else if s = StateShutdown then str "shutdown"
  else str "unknown_state_" ++ intDec s

/-- ConnectivityEvent models the Go struct. -/
structure ConnectivityEvent where
  actor : Str
  state : Int
  time : Str
  reason : Str
  attempt : Int
  backoff : Int
  err : Option Str
deriving Repr, DecidableEq

/-- The helper struct `connectivityEventJSON` populated exactly as `ToJSON`
does: `Error` from `Err.Error()` when non-nil, `Backoff` from
`Backoff.String()` only when positive. -/
structure ConnectivityEventJSON where
  actor : Str
  state : Str
  time : Str
  reason : Str
  attempt : Int
  errorMsg : Str
  backoff : Option Int
deriving Repr, DecidableEq

/-- Build the JSON helper record as `ConnectivityEvent.ToJSON` does. -/
def toJSONRecord (e : ConnectivityEvent) : ConnectivityEventJSON :=
  { actor := e.actor
    state := stateString e.state
    time := e.time
    reason := e.reason
    attempt := e.attempt
    errorMsg := match e.err with | some m => m | none => []
    backoff := if 0 < e.backoff then some e.backoff else none }

/-- The keys present in the marshalled JSON object, in struct order, with
`omitempty` semantics for `actor`, `reason`, `attempt`, `error`, `backoff`
(`state` and `time` are always present). -/
def jsonKeys (e : ConnectivityEvent) : List Str :=
  let r := toJSONRecord e
  (if r.actor ≠ [] then [str "actor"] else []) ++
  [str "state", str "time"] ++
  (if r.reason ≠ [] then [str "reason"] else []) ++
  (if r.attempt ≠ 0 then [str "attempt"] else []) ++
  (if r.errorMsg ≠ [] then [str "error"] else []) ++
  (if r.backoff.isSome then [str "backoff"] else [])

/-! ### Store model of Go slices and pointers

`NewWorkItemFromQuery` copies the `LiveStatusQuery` struct by value, but the
struct holds three slices and a `*bool`; the copy shares their backing
arrays.  To settle the frame claim faithfully the builder is re-modelled
with an explicit store: a slice is an array identifier plus a length, and
`append` either writes the shared backing array beyond the slice length
(possible in Go when capacity suffices) or allocates a fresh array.
Quantifying over that choice covers every behaviour Go's capacity rule can
produce. -/

/-- A Go slice header: backing-array identifier and length. -/
structure SliceRef where
  arr : Nat
  len : Nat
deriving Repr, DecidableEq

/-- The mutable store: string-slice arrays, bool cells, and a fresh-id
counter. -/
structure Store where
  sheap : Nat → List Str
  bheap : Nat → Bool
  next : Nat

/-- The elements a slice exposes. -/
def Store.view (σ : Store) (s : SliceRef) : List Str := (σ.sheap s.arr).take s.len

/-- Allocate a fresh backing array. -/
def Store.alloc (σ : Store) (v : List Str) : Store × Nat :=
  (⟨fun i => if i = σ.next then v else σ.sheap i, σ.bheap, σ.next + 1⟩, σ.next)

/-- Allocate a fresh bool cell (`&on` in `ColumnHeaders`). -/
def Store.balloc (σ : Store) (b : Bool) : Store × Nat :=
  (⟨σ.sheap, fun i => if i = σ.next then b else σ.bheap i, σ.next + 1⟩, σ.next)

/-- Overwrite one backing array. -/
def Store.setArr (σ : Store) (a : Nat) (v : List Str) : Store :=
  ⟨fun i => if i = a then v else σ.sheap i, σ.bheap, σ.next⟩

/-- Go `append`: with `inPlace` the backing array is written starting at the
slice length and the rest of the array kept; otherwise the visible elements
are copied into a fresh array. -/
def slicePush (inPlace : Bool) (σ : Store) (s : SliceRef) (xs : List Str) :
    Store × SliceRef :=
  if inPlace then
    let old := σ.sheap s.arr
    (σ.setArr s.arr (old.take s.len ++ xs ++ old.drop (s.len + xs.length)),
     ⟨s.arr, s.len + xs.length⟩)
  else
    let p := σ.alloc (σ.view s ++ xs)
    (p.1, ⟨p.2, s.len + xs.length⟩)

/-- The builder struct as stored in memory: slice headers and a `*bool`. -/
structure QRef where
  table : Str
  columns : SliceRef
  filters : SliceRef
  headers : SliceRef
  outputFormat : Str
  columnHdrs : Option Nat
deriving Repr, DecidableEq

/-- Read a `QRef` back into the pure builder value. -/
def toQuery (σ : Store) (q : QRef) : LiveStatusQuery :=
  ⟨q.table, σ.view q.columns, σ.view q.filters, σ.view q.headers,
   q.outputFormat, q.columnHdrs.map σ.bheap⟩

/-- What `WorkItem.Query.Build()` observes for a snapshot `q` in store `σ`. -/
def buildOfViews (σ : Store) (q : QRef) : Str := (toQuery σ q).Build

/-- One builder mutation, with the in-place/fresh choice for each append. -/
inductive BOp where
  | columnsOp (cols : List Str)
  | addColumnsOp (ip : Bool) (cols : List Str)
  | filterOp (ip : Bool) (column op value : Str)
  | orOp (ip : Bool) (n : Int)
  | andOp (ip : Bool) (n : Int)
  | negateOp (ip : Bool)
  | limitOp (ip : Bool) (n : Int)
  | waitObjectOp (ip : Bool) (v : Str)
  | waitTriggerOp (ip : Bool) (v : Str)
  | waitConditionOp (ip : Bool) (v : Str)
  | waitTimeoutOp (ip : Bool) (n : Int)
  | keepAliveOp (ip : Bool) (b : Bool)
  | respFixed16Op (ip : Bool)
  | respOffOp (ip : Bool)
  | localtimeOp (ip : Bool) (n : Int)
  | headerOp (ip : Bool) (key value : Str)
  | outputFormatOp (f : Str)
  | columnHeadersOp (b : Bool)

/-- Append elements to the `columns` slice (the body of `AddColumns`). -/
def pushColumns (ip : Bool) (σ : Store) (q : QRef) (cols : List Str) :
    Store × QRef :=
  let p := slicePush ip σ q.columns cols
  (p.1, { q with columns := p.2 })

/-- Append one rendered line to the `filters` slice. -/
def pushFilters (ip : Bool) (σ : Store) (q : QRef) (line : Str) : Store × QRef :=
  let p := slicePush ip σ q.filters [line]
  (p.1, { q with filters := p.2 })

/-- Append one rendered line to the `headers` slice. -/
def pushHeaders (ip : Bool) (σ : Store) (q : QRef) (line : Str) : Store × QRef :=
  let p := slicePush ip σ q.headers [line]
  (p.1, { q with headers := p.2 })

/-- Execute one builder mutation on the stored builder, mirroring the Go
method bodies. -/
def stepOp (σ : Store) (q : QRef) : BOp → Store × QRef
  | .columnsOp cols =>
    let p := σ.alloc cols
    (p.1, { q with columns := ⟨p.2, cols.length⟩ })
  | .addColumnsOp ip cols => pushColumns ip σ q cols
  | .filterOp ip column op value =>
    pushFilters ip σ q (LiveStatusQuery.mkFilterLine column op value)
  | .orOp ip n => pushFilters ip σ q (str "Or: " ++ intDec n)
  | .andOp ip n => pushFilters ip σ q (str "And: " ++ intDec n)
  | .negateOp ip => pushFilters ip σ q (str "Negate:")
  | .limitOp ip n => pushHeaders ip σ q (str "Limit: " ++ intDec n)
  | .waitObjectOp ip v => pushHeaders ip σ q (str "WaitObject: " ++ safeValue v)
  | .waitTriggerOp ip v => pushHeaders ip σ q (str "WaitTrigger: " ++ safeToken v)
  | .waitConditionOp ip v => pushHeaders ip σ q (str "WaitCondition: " ++ safeValue v)
  | .waitTimeoutOp ip n => pushHeaders ip σ q (str "WaitTimeout: " ++ intDec n)
  | .keepAliveOp ip b =>
    if b then pushHeaders ip σ q (str "KeepAlive: on")
    else pushHeaders ip σ q (str "KeepAlive: off")
  | .respFixed16Op ip => pushHeaders ip σ q (str "ResponseHeader: fixed16")
  | .respOffOp ip => pushHeaders ip σ q (str "ResponseHeader: off")
  | .localtimeOp ip n => pushHeaders ip σ q (str "Localtime: " ++ intDec n)
  | .headerOp ip key value =>
    let key := trimSpace (trimSuffixColon key)
    if key = [] then (σ, q)
    else if value = [] then pushHeaders ip σ q (key ++ [':'])
    else pushHeaders ip σ q (key ++ str ": " ++ safeValue value)
  | .outputFormatOp f => (σ, { q with outputFormat := f })
  | .columnHeadersOp b =>
    let p := σ.balloc b
    (p.1, { q with columnHdrs := some p.2 })

/-- Run a sequence of builder mutations. -/
def runOps (σ : Store) (q : QRef) : List BOp → Store × QRef
  | [] => (σ, q)
  | op :: rest =>
    let p := stepOp σ q op
    runOps p.1 p.2 rest

/-- A slice's length does not exceed its backing array. -/
def sliceWF (σ : Store) (s : SliceRef) : Bool :=
  decide (s.len ≤ (σ.sheap s.arr).length)

/-- Well-formedness of a freshly snapshotted builder: distinct backing
arrays, identifiers inside the allocated range, lengths within bounds. -/
def startWF (σ : Store) (q : QRef) : Bool :=
  decide (q.columns.arr ≠ q.filters.arr) &&
  decide (q.columns.arr ≠ q.headers.arr) &&
  decide (q.filters.arr ≠ q.headers.arr) &&
  decide (q.columns.arr < σ.next) &&
  decide (q.filters.arr < σ.next) &&
  decide (q.headers.arr < σ.next) &&
  (match q.columnHdrs with
   | some b => decide (b < σ.next)
   | none => true) &&
  sliceWF σ q.columns && sliceWF σ q.filters && sliceWF σ q.headers

/-- One `lines = append(lines, …)` statement inside `Build`, consuming one
in-place/fresh choice. -/
def pushChoice : List Bool → Bool × List Bool
  | [] => (false, [])
  | b :: r => (b, r)

/-- Apply one append to the local `lines` slice. -/
def buildStep (st : Store × SliceRef × List Bool) (xs : List Str) :
    Store × SliceRef × List Bool :=
  let c := pushChoice st.2.2
  let p := slicePush c.1 st.1 st.2.1 xs
  (p.1, p.2, c.2)

/-- Build as executed against the store: a local `lines` slice (a nil slice,
rooted at a fresh empty array) accumulates the output lines; every read of
the builder goes through the store current at that statement. -/
def buildS (σ0 : Store) (q : QRef) (ips : List Bool) : Str × Store :=
  let pa := σ0.alloc []
  let st1 : Store × SliceRef × List Bool := (pa.1, ⟨pa.2, 0⟩, ips)
  let st2 := buildStep st1 [str "GET " ++ q.table]
  let st3 :=
    if (st2.1.view q.columns).length > 0 then
      buildStep st2
        [str "Columns: " ++ joinSep [' '] (safeTokens (st2.1.view q.columns))]
    else st2
  let st4 := buildStep st3 (st3.1.view q.filters)
  let st5 :=
    match q.columnHdrs with
    | some b =>
      buildStep st4
        [if st4.1.bheap b then str "ColumnHeaders: on" else str "ColumnHeaders: off"]
    | none => st4
  let st6 := buildStep st5 (st5.1.view q.headers)
  let st7 :=
    if q.outputFormat ≠ [] then
      buildStep st6 [str "OutputFormat: " ++ q.outputFormat]
    else st6
  let st8 := buildStep st7 [[]]
  (joinSep ['\n'] (st8.1.view st8.2.1), st8.1)

/-! ### String lemmas -/

theorem mem_of_mem_dropWhile {p : Char → Bool} {l : Str} {c : Char}
    (h : c ∈ l.dropWhile p) : c ∈ l := by
  induction l with
  | nil => simp [List.dropWhile] at h
  | cons x xs ih =>
    by_cases hx : p x
    · simp [List.dropWhile, hx] at h
      exact List.mem_cons_of_mem _ (ih h)
    · simpa [List.dropWhile, hx] using h

theorem mem_of_mem_trimSpace {s : Str} {c : Char} (h : c ∈ trimSpace s) :
    c ∈ s := by
  have h1 : c ∈ trimRight s := mem_of_mem_dropWhile h
  rw [trimRight, List.mem_reverse] at h1
  exact List.mem_reverse.mp (mem_of_mem_dropWhile h1)

theorem not_mem_replaceChar_target {a b : Char} (hab : b ≠ a) (s : Str) :
    a ∉ replaceChar a b s := by
  intro h
  rcases List.mem_map.mp h with ⟨x, _, hx⟩
  by_cases hxa : x = a
  · rw [if_pos hxa] at hx
    exact hab hx
  · rw [if_neg hxa] at hx
    exact hxa hx

theorem not_mem_replaceChar_of {x a b : Char} {s : Str} (hs : x ∉ s)
    (hxb : x ≠ b) : x ∉ replaceChar a b s := by
  intro h
  rcases List.mem_map.mp h with ⟨y, hy, hxy⟩
  by_cases hya : y = a
  · rw [if_pos hya] at hxy
    exact hxb hxy.symm
  · rw [if_neg hya] at hxy
    exact hs (hxy ▸ hy)

theorem mem_of_mem_removeChar {x a : Char} {s : Str}
    (h : x ∈ removeChar a s) : x ∈ s :=
  List.mem_of_mem_filter h

theorem not_mem_removeChar_self (a : Char) (s : Str) : a ∉ removeChar a s := by
  intro h
  have := List.of_mem_filter h
  simp at this

theorem safeToken_no_nl (s : Str) : '\n' ∉ safeToken s := by
  intro h
  exact not_mem_replaceChar_target (by decide) _ (mem_of_mem_trimSpace h)

theorem safeToken_no_cr (s : Str) : '\r' ∉ safeToken s := by
  intro h
  have h1 := mem_of_mem_trimSpace h
  exact not_mem_replaceChar_of (not_mem_replaceChar_target (by decide) s)
    (by decide) h1

theorem safeValue_no_nl (s : Str) : '\n' ∉ safeValue s :=
  not_mem_replaceChar_target (by decide) _

theorem safeValue_no_cr (s : Str) : '\r' ∉ safeValue s :=
  not_mem_replaceChar_of (not_mem_replaceChar_target (by decide) _) (by decide)

theorem safeValue_no_nul (s : Str) : '\x00' ∉ safeValue s :=
  not_mem_replaceChar_of
    (not_mem_replaceChar_of (not_mem_removeChar_self _ _) (by decide))
    (by decide)

theorem mem_joinSep {sep : Str} {ls : List Str} {c : Char}
    (h : c ∈ joinSep sep ls) : c ∈ sep ∨ ∃ l ∈ ls, c ∈ l := by
  induction ls with
  | nil => simp [joinSep] at h
  | cons x xs ih =>
    cases xs with
    | nil =>
      simp [joinSep] at h
      exact Or.inr ⟨x, by simp, h⟩
    | cons y ys =>
      simp only [joinSep, List.append_assoc, List.mem_append] at h
      rcases h with hx | hsep | hrest
      · exact Or.inr ⟨x, by simp, hx⟩
      · exact Or.inl hsep
      · rcases ih hrest with hs | ⟨l, hl, hc⟩
        · exact Or.inl hs
        · exact Or.inr ⟨l, List.mem_cons_of_mem _ hl, hc⟩

theorem splitNL_cons_nl (t : Str) : splitNL ('\n' :: t) = [] :: splitNL t := by
  simp [splitNL]

theorem splitNL_append_nl {x : Str} (hx : '\n' ∉ x) (t : Str) :
    splitNL (x ++ '\n' :: t) = x :: splitNL t := by
  induction x with
  | nil => simp [splitNL]
  | cons c cs ih =>
    have hc : c ≠ '\n' := fun h => hx (h ▸ List.mem_cons_self c cs)
    have hcs : '\n' ∉ cs := fun h => hx (List.mem_cons_of_mem _ h)
    simp only [List.cons_append, splitNL, if_neg hc, List.append_eq]
    rw [ih hcs]

theorem splitNL_no_nl {x : Str} (hx : '\n' ∉ x) : splitNL x = [x] := by
  induction x with
  | nil => simp [splitNL]
  | cons c cs ih =>
    have hc : c ≠ '\n' := fun h => hx (h ▸ List.mem_cons_self c cs)
    have hcs : '\n' ∉ cs := fun h => hx (List.mem_cons_of_mem _ h)
    simp only [splitNL, if_neg hc, ih hcs]

theorem splitNL_joinSep {ls : List Str} (hne : ls ≠ [])
    (h : ∀ l ∈ ls, '\n' ∉ l) : splitNL (joinSep ['\n'] ls) = ls := by
  induction ls with
  | nil => exact absurd rfl hne
  | cons x xs ih =>
    cases xs with
    | nil => exact splitNL_no_nl (h x (by simp))
    | cons y ys =>
      have hx : '\n' ∉ x := h x (by simp)
      have hrest : ∀ l ∈ y :: ys, '\n' ∉ l := fun l hl =>
        h l (List.mem_cons_of_mem _ hl)
      calc splitNL (joinSep ['\n'] (x :: y :: ys))
          = splitNL (x ++ '\n' :: joinSep ['\n'] (y :: ys)) := by
            simp [joinSep]
        _ = x :: splitNL (joinSep ['\n'] (y :: ys)) := splitNL_append_nl hx _
        _ = x :: y :: ys := by rw [ih (by simp) hrest]

theorem if_append_push {c : Prop} [Decidable c] (L : List Str) (x : Str) :
    (if c then L ++ [x] else L) = L ++ (if c then [x] else []) := by
  split <;> simp

theorem match_append_push (o : Option Bool) (L : List Str) (a b : Str) :
    (match o with
     | some true => L ++ [a]
     | some false => L ++ [b]
     | none => L) =
      L ++ (match o with
            | some true => [a]
            | some false => [b]
            | none => []) := by
  rcases o with _ | _ | _ <;> simp

/-- The list of output lines `Build` joins (before the empty terminator). -/
def buildLines (q : LiveStatusQuery) : List Str :=
  [str "GET " ++ q.table] ++
  (if q.columns.length > 0 then
    [str "Columns: " ++ joinSep [' '] (safeTokens q.columns)]
   else []) ++
  q.filters ++
  (match q.columnHdrs with
   | some true => [str "ColumnHeaders: on"]
   | some false => [str "ColumnHeaders: off"]
   | none => []) ++
  q.headers ++
  (if q.outputFormat ≠ [] then [str "OutputFormat: " ++ q.outputFormat] else [])

theorem Build_eq_joinSep (q : LiveStatusQuery) :
    q.Build = joinSep ['\n'] (buildLines q ++ [[]]) := by
  by_cases h1 : q.columns.length > 0 <;>
    by_cases h2 : q.outputFormat ≠ [] <;>
    rcases hc : q.columnHdrs with _ | b <;>
    (try cases b) <;>
    simp [LiveStatusQuery.Build, buildLines, h1, h2, hc, List.append_assoc]

theorem buildLines_no_nl (q : LiveStatusQuery)
    (ht : '\n' ∉ q.table) (hf : ∀ l ∈ q.filters, '\n' ∉ l)
    (hh : ∀ l ∈ q.headers, '\n' ∉ l) (ho : '\n' ∉ q.outputFormat) :
    ∀ l ∈ buildLines q ++ [[]], '\n' ∉ l := by
  intro l hl
  simp only [buildLines, List.append_assoc, List.mem_append] at hl
  rcases hl with hl | hl | hl | hl | hl | hl | hl
  · simp only [List.mem_singleton] at hl
    subst hl
    intro h
    rcases List.mem_append.mp h with h | h
    · exact absurd h (by decide)
    · exact ht h
  · split at hl
    · simp only [List.mem_singleton] at hl
      subst hl
      intro h
      rcases List.mem_append.mp h with h | h
      · exact absurd h (by decide)
      · rcases mem_joinSep h with h | ⟨tok, htok, hc⟩
        · exact absurd h (by decide)
        · rcases List.mem_map.mp htok with ⟨cnm, _, rfl⟩
          exact safeToken_no_nl cnm hc
    · exact absurd hl (List.not_mem_nil l)
  · exact hf l hl
  · rcases hb : q.columnHdrs with _ | b
    · rw [hb] at hl
      exact absurd hl (List.not_mem_nil l)
    · rw [hb] at hl
      cases b <;> simp only [List.mem_singleton] at hl <;> subst hl <;> decide
  · exact hh l hl
  · split at hl
    · simp only [List.mem_singleton] at hl
      subst hl
      intro h
      rcases List.mem_append.mp h with h | h
      · exact absurd h (by decide)
      · exact ho h
    · exact absurd hl (List.not_mem_nil l)
  · simp only [List.mem_singleton] at hl
    subst hl
    simp

/-- C1: For every builder state, Build assembles the output lines in the
strict order GET line, Columns line when non-empty, filter lines in
insertion order, ColumnHeaders if and only if set, header lines in
insertion order, OutputFormat if non-empty, then the trailing empty line. -/
theorem build_assembles_lines_in_strict_order (q : LiveStatusQuery)
    (ht : '\n' ∉ q.table) (hf : ∀ l ∈ q.filters, '\n' ∉ l)
    (hh : ∀ l ∈ q.headers, '\n' ∉ l) (ho : '\n' ∉ q.outputFormat) :
    splitNL q.Build =
      [str "GET " ++ q.table] ++
      (if q.columns.length > 0 then
        [str "Columns: " ++ joinSep [' '] (safeTokens q.columns)]
       else []) ++
      q.filters ++
      (match q.columnHdrs with
       | some true => [str "ColumnHeaders: on"]
       | some false => [str "ColumnHeaders: off"]
       | none => []) ++
      q.headers ++
      (if q.outputFormat ≠ [] then [str "OutputFormat: " ++ q.outputFormat]
       else []) ++
      [[]] := by
  rw [Build_eq_joinSep,
    splitNL_joinSep (by simp [buildLines]) (buildLines_no_nl q ht hf hh ho)]
  simp [buildLines, List.append_assoc]

/-- Witness for C1: the filters-and-boolean-glue example from the test
suite, with every hypothesis discharged on concrete data. -/
theorem build_assembles_lines_in_strict_order_witness :
    splitNL ((((((newLiveStatusQuery (str "services")
        [str "host_name", str "description", str "state"]).FilterEqual
        (str "state") (str "2")).FilterEqual (str "acknowledged")
        (str "0")).And 2).FilterRegexI (str "description")
        (str "http.*backend")).Or 2 |>.OutputFormat (str "csv")).Build =
      [str "GET services", str "Columns: host_name description state",
       str "Filter: state = 2", str "Filter: acknowledged = 0",
       str "And: 2", str "Filter: description ~~ http.*backend",
       str "Or: 2", str "OutputFormat: csv", []] := by
  have h := build_assembles_lines_in_strict_order
    ((((((newLiveStatusQuery (str "services")
      [str "host_name", str "description", str "state"]).FilterEqual
      (str "state") (str "2")).FilterEqual (str "acknowledged")
      (str "0")).And 2).FilterRegexI (str "description")
      (str "http.*backend")).Or 2 |>.OutputFormat (str "csv"))
    (by decide) (by decide) (by decide) (by decide)
  rw [h]
  decide

/-- C2 counterexample: the claim includes the table among the sanitised
inputs, but `Build` renders the table raw, so a table containing CR puts a
raw CR into the first output line; and `safeToken` does not remove NUL, so
a column containing NUL puts a raw NUL into the Columns line. -/
theorem builder_sanitisation_counterexample :
    ((splitNL (newLiveStatusQuery (str "bad\rtable") []).Build).any
      (fun l => l.contains '\r') = true) ∧
    ((splitNL (newLiveStatusQuery (str "hosts") [str "a\x00b"]).Build).any
      (fun l => l.contains '\x00') = true) := by decide

/-- C2 (amended): strings passed through `safeValue` (filter values, header
values) lose every CR, LF and NUL; strings passed through `safeToken`
(columns, filter columns) lose every CR and LF (NUL is not removed, and the
table is not sanitised at all); `FilterEqual("host_name", "bad\r\nname")`
renders `Filter: host_name = bad  name`. -/
theorem sanitisers_strip_control_characters :
    (∀ s : Str, '\r' ∉ safeValue s ∧ '\n' ∉ safeValue s ∧ '\x00' ∉ safeValue s) ∧
    (∀ s : Str, '\r' ∉ safeToken s ∧ '\n' ∉ safeToken s) ∧
    ((newLiveStatusQuery (str "services") [str "host_name"]).FilterEqual
      (str "host_name") (str "bad\r\nname")).filters =
      [str "Filter: host_name = bad  name"] :=
  ⟨fun s => ⟨safeValue_no_cr s, safeValue_no_nl s, safeValue_no_nul s⟩,
   fun s => ⟨safeToken_no_cr s, safeToken_no_nl s⟩, by decide⟩

theorem joinSep_cons_ne (sep x : Str) {L : List Str} (h : L ≠ []) :
    joinSep sep (x :: L) = x ++ sep ++ joinSep sep L := by
  cases L with
  | nil => exact absurd rfl h
  | cons y ys => simp [joinSep]

theorem joinSep_concat_empty (sep : Str) (L : List Str) (h : L ≠ []) :
    joinSep sep (L ++ [[]]) = joinSep sep L ++ sep := by
  induction L with
  | nil => exact absurd rfl h
  | cons x xs ih =>
    cases xs with
    | nil => simp [joinSep]
    | cons y ys =>
      calc joinSep sep ((x :: y :: ys) ++ [[]])
          = x ++ sep ++ joinSep sep ((y :: ys) ++ [[]]) := by
            simp [joinSep]
        _ = x ++ sep ++ (joinSep sep (y :: ys) ++ sep) := by
            rw [ih (by simp)]
        _ = joinSep sep (x :: y :: ys) ++ sep := by
            simp [joinSep, List.append_assoc]

theorem buildLines_eq_cons (q : LiveStatusQuery) :
    buildLines q = (str "GET " ++ q.table) :: (buildLines q).tail := by
  simp [buildLines]

theorem buildLines_ne_nil (q : LiveStatusQuery) : buildLines q ≠ [] := by
  simp [buildLines]

/-- C3 counterexample: the basic build example does not end with a blank
line — `Build` joins the empty terminator element with a single newline —
so it differs from the string the claim asserts. -/
theorem build_double_newline_counterexample :
    (((newLiveStatusQuery (str "hosts") [str "name", str "state"]).OutputFormat
      (str "json")).Limit 10).Build ≠
      str "GET hosts\nColumns: name state\nLimit: 10\nOutputFormat: json\n\n" ∧
    ¬ str "\n\n" <:+
      (((newLiveStatusQuery (str "hosts") [str "name", str "state"]).OutputFormat
        (str "json")).Limit 10).Build := by decide

/-- C3 (amended): for every builder state, Build's output starts with the
`GET <table>` line and ends with exactly one trailing newline coming from
the empty terminator element (the senders append the second newline before
transmission); the basic example equals
`GET hosts\nColumns: name state\nLimit: 10\nOutputFormat: json\n`. -/
theorem build_starts_with_get_and_ends_with_newline :
    (∀ q : LiveStatusQuery, ∃ rest : Str,
        q.Build = str "GET " ++ q.table ++ '\n' :: rest) ∧
    (∀ q : LiveStatusQuery, ∃ body : Str, q.Build = body ++ ['\n']) ∧
    (((newLiveStatusQuery (str "hosts") [str "name", str "state"]).OutputFormat
      (str "json")).Limit 10).Build =
      str "GET hosts\nColumns: name state\nLimit: 10\nOutputFormat: json\n" := by
  refine ⟨fun q => ⟨joinSep ['\n'] ((buildLines q).tail ++ [[]]), ?_⟩,
    fun q => ⟨joinSep ['\n'] (buildLines q), ?_⟩, by decide⟩
  · rw [Build_eq_joinSep q, buildLines_eq_cons q, List.cons_append,
      joinSep_cons_ne ['\n'] _ (by simp)]
    simp [List.append_assoc]
  · rw [Build_eq_joinSep q, joinSep_concat_empty ['\n'] _ (buildLines_ne_nil q)]

/-! ### Decimal digit lemmas for the fixed16 roundtrip -/

theorem digitChar_eq_of_lt {d : Nat} (hd : d < 10) :
    ∃ e, digitChar d = digitChar e ∧ e < 10 := ⟨d, rfl, hd⟩

theorem isDigit_digitChar {d : Nat} (hd : d < 10) :
    isDigitChar (digitChar d) = true := by
  interval_cases d <;> decide

theorem digitChar_ne_plus {d : Nat} (hd : d < 10) : digitChar d ≠ '+' := by
  interval_cases d <;> decide

theorem digitChar_ne_minus {d : Nat} (hd : d < 10) : digitChar d ≠ '-' := by
  interval_cases d <;> decide

theorem not_space_digitChar {d : Nat} (hd : d < 10) :
    isUniSpace (digitChar d) = false := by
  interval_cases d <;> decide

theorem digVal_digitChar {d : Nat} (hd : d < 10) : digVal (digitChar d) = d := by
  interval_cases d <;> decide

theorem natDecAux_eq_digits : ∀ (fuel n : Nat), n ≤ fuel →
    natDecAux fuel n = (Nat.digits 10 n).map digitChar := by
  intro fuel
  induction fuel with
  | zero =>
    intro n hn
    have : n = 0 := Nat.le_zero.mp hn
    subst this
    simp [natDecAux]
  | succ f ih =>
    intro n hn
    by_cases h0 : n = 0
    · subst h0; simp [natDecAux]
    · have hpos : 0 < n := Nat.pos_of_ne_zero h0
      rw [natDecAux, if_neg h0, Nat.digits_def' (by norm_num) hpos]
      have hdiv : n / 10 ≤ f := by
        have := Nat.div_lt_self hpos (by norm_num : 1 < 10)
        omega
      rw [ih (n / 10) hdiv]
      simp

theorem natDec_eq_digits {n : Nat} (h : n ≠ 0) :
    natDec n = ((Nat.digits 10 n).map digitChar).reverse := by
  rw [natDec, if_neg h, natDecAux_eq_digits n n le_rfl]

theorem mem_natDec {c : Char} {n : Nat} (h : c ∈ natDec n) :
    ∃ d, d < 10 ∧ c = digitChar d := by
  by_cases h0 : n = 0
  · subst h0
    simp [natDec] at h
    exact ⟨0, by norm_num, h⟩
  · rw [natDec_eq_digits h0, List.mem_reverse] at h
    rcases List.mem_map.mp h with ⟨d, hd, rfl⟩
    exact ⟨d, Nat.digits_lt_base (by norm_num) hd, rfl⟩

theorem natDec_ne_nil (n : Nat) : natDec n ≠ [] := by
  by_cases h0 : n = 0
  · subst h0; simp [natDec]
  · rw [natDec_eq_digits h0]
    simp [Nat.digits_ne_nil_iff_ne_zero.mpr h0]

theorem natDec_all_digits (n : Nat) : (natDec n).all isDigitChar = true := by
  rw [List.all_eq_true]
  intro c hc
  rcases mem_natDec hc with ⟨d, hd, rfl⟩
  exact isDigit_digitChar hd

theorem natDec_no_space (n : Nat) : ∀ c ∈ natDec n, isUniSpace c = false := by
  intro c hc
  rcases mem_natDec hc with ⟨d, hd, rfl⟩
  exact not_space_digitChar hd

theorem natDec_length_le {n k : Nat} (hk : 0 < k) (h : n < 10 ^ k) :
    (natDec n).length ≤ k := by
  by_cases h0 : n = 0
  · subst h0; simpa [natDec] using hk
  · rw [natDec_eq_digits h0]
    simp only [List.length_reverse, List.length_map]
    rw [Nat.digits_len 10 n (by norm_num) h0]
    have := Nat.log_lt_of_lt_pow h0 h
    omega

theorem foldl_step_digitChar : ∀ (m : List Nat) (a : Nat),
    (∀ d ∈ m, d < 10) →
    List.foldr (fun c a => 10 * a + digVal c) a (m.map digitChar) =
      List.foldr (fun d a => 10 * a + d) a m := by
  intro m
  induction m with
  | nil => intro a _; rfl
  | cons d ds ih =>
    intro a h
    have hd : d < 10 := h d (by simp)
    simp only [List.map_cons, List.foldr_cons]
    rw [ih a (fun x hx => h x (List.mem_cons_of_mem _ hx)),
      digVal_digitChar hd]

theorem foldr_eq_ofDigits : ∀ (m : List Nat),
    List.foldr (fun d a => 10 * a + d) 0 m = Nat.ofDigits 10 m := by
  intro m
  induction m with
  | nil => simp [Nat.ofDigits_nil]
  | cons d ds ih =>
    simp only [List.foldr_cons, ih, Nat.ofDigits_cons]
    omega

theorem decValue_natDec (n : Nat) : decValue (natDec n) = n := by
  by_cases h0 : n = 0
  · subst h0; decide
  · rw [natDec_eq_digits h0, decValue, List.foldl_reverse]
    have h1 := foldl_step_digitChar (Nat.digits 10 n) 0
      (fun d hd => Nat.digits_lt_base (by norm_num) hd)
    rw [h1, foldr_eq_ofDigits, Nat.ofDigits_digits]

theorem splitSign_no_sign {c : Char} {r : Str} (h1 : c ≠ '+') (h2 : c ≠ '-') :
    splitSign (c :: r) = (false, c :: r) := by
  unfold splitSign
  split
  · rename_i heq; injection heq with h _; exact absurd h h1
  · rename_i heq; injection heq with h _; exact absurd h h2
  · rfl

theorem atoi_natDec {n : Nat} (h : (n : Int) < 2 ^ 63) :
    atoi (natDec n) = some (n : Int) := by
  obtain ⟨c, r, hcr⟩ : ∃ c r, natDec n = c :: r := by
    cases hd : natDec n with
    | nil => exact absurd hd (natDec_ne_nil n)
    | cons c r => exact ⟨c, r, rfl⟩
  have hc : c ∈ natDec n := by rw [hcr]; exact List.mem_cons_self c r
  rcases mem_natDec hc with ⟨d, hd, rfl⟩
  have hsplit : splitSign (natDec n) = (false, natDec n) := by
    rw [hcr]
    exact splitSign_no_sign (digitChar_ne_plus hd) (digitChar_ne_minus hd)
  simp only [atoi, hsplit, natDec_ne_nil n, natDec_all_digits n,
    decValue_natDec n, if_false, if_true, ite_true, ite_false,
    Bool.false_eq_true, ne_eq, not_false_eq_true]
  rw [if_neg (by push_cast; omega)]

/-! ### Padding and trimming for the fixed16 roundtrip -/

theorem isUniSpace_space : isUniSpace ' ' = true := by decide

theorem dropWhile_replicate_space (k : Nat) (l : Str) :
    (List.replicate k ' ' ++ l).dropWhile isUniSpace = l.dropWhile isUniSpace := by
  induction k with
  | zero => simp
  | succ m ih =>
    rw [List.replicate_succ, List.cons_append, List.dropWhile_cons_of_pos]
    · exact ih
    · exact isUniSpace_space

theorem trimSpace_replicate_append {k : Nat} {ds : Str}
    (h : ∀ c ∈ ds, isUniSpace c = false) (hne : ds ≠ []) :
    trimSpace (List.replicate k ' ' ++ ds) = ds := by
  obtain ⟨c, t, hct⟩ : ∃ c t, ds.reverse = c :: t := by
    cases hr : ds.reverse with
    | nil => exact absurd (by simpa using congrArg List.reverse hr) hne
    | cons c t => exact ⟨c, t, rfl⟩
  have hc : isUniSpace c = false := by
    refine h c ?_
    rw [← List.mem_reverse, hct]
    exact List.mem_cons_self c t
  have htr : trimRight (List.replicate k ' ' ++ ds) = List.replicate k ' ' ++ ds := by
    unfold trimRight
    rw [List.reverse_append, hct, List.cons_append,
      List.dropWhile_cons_of_neg (by simp [hc]), ← List.cons_append, ← hct]
    simp
  rw [trimSpace, htr, trimLeft, dropWhile_replicate_space]
  cases ds with
  | nil => exact absurd rfl hne
  | cons d dt =>
    rw [List.dropWhile_cons_of_neg]
    simp [h d (List.mem_cons_self d dt)]

theorem take_append_of_length {l₁ l₂ : Str} {k : Nat} (h : l₁.length = k) :
    (l₁ ++ l₂).take k = l₁ := by
  subst h; simp

theorem drop_append_of_length {l₁ l₂ : Str} {k : Nat} (h : l₁.length = k) :
    (l₁ ++ l₂).drop k = l₂ := by
  subst h; simp

theorem padLeftSpaces_length {w : Nat} {s : Str} (h : s.length ≤ w) :
    (padLeftSpaces w s).length = w := by
  simp [padLeftSpaces]
  omega

theorem trimSpace_padLeftSpaces {w : Nat} {n : Nat} :
    trimSpace (padLeftSpaces w (natDec n)) = natDec n :=
  trimSpace_replicate_append (natDec_no_space n) (natDec_ne_nil n)

/-- C4: the fixed16 parser is a total inverse of the canonical encoder —
for every status code in `[0,999]` and length below `10^11`, parsing the
16-byte encoding returns exactly that code and length with no error. -/
theorem parseFixed16Header_encode_roundtrip (code len : Nat)
    (hc : code ≤ 999) (hl : len < 10 ^ 11) :
    parseFixed16Header (encodeFixed16 code len) = some ((code : Int), (len : Int)) := by
  have hcl : (natDec code).length ≤ 3 :=
    natDec_length_le (by norm_num) (by omega)
  have hll : (natDec len).length ≤ 11 :=
    natDec_length_le (by norm_num) (by omega)
  have hA : (padLeftSpaces 3 (natDec code)).length = 3 := padLeftSpaces_length hcl
  have hB : (padLeftSpaces 11 (natDec len)).length = 11 := padLeftSpaces_length hll
  have hlen : (encodeFixed16 code len).length = 16 := by
    simp [encodeFixed16, hA, hB]
  have htake : (encodeFixed16 code len).take 3 = padLeftSpaces 3 (natDec code) := by
    have he : encodeFixed16 code len =
        padLeftSpaces 3 (natDec code) ++
          ([' '] ++ (padLeftSpaces 11 (natDec len) ++ ['\n'])) := by
      simp [encodeFixed16, List.append_assoc]
    rw [he, take_append_of_length hA]
  have hdrop : ((encodeFixed16 code len).drop 4).take 11 =
      padLeftSpaces 11 (natDec len) := by
    have h4 : (padLeftSpaces 3 (natDec code) ++ [' ']).length = 4 := by
      simp [hA]
    have he : encodeFixed16 code len =
        (padLeftSpaces 3 (natDec code) ++ [' ']) ++
          (padLeftSpaces 11 (natDec len) ++ ['\n']) := by
      simp [encodeFixed16, List.append_assoc]
    rw [he, drop_append_of_length h4, take_append_of_length hB]
  have hac : atoi (trimSpace ((encodeFixed16 code len).take 3)) = some (code : Int) := by
    rw [htake, trimSpace_padLeftSpaces, atoi_natDec (by push_cast; omega)]
  have hal : atoi (trimSpace (((encodeFixed16 code len).drop 4).take 11)) =
      some (len : Int) := by
    rw [hdrop, trimSpace_padLeftSpaces, atoi_natDec (by push_cast; omega)]
  rw [parseFixed16Header, if_neg (by rw [hlen]; simp), hac, hal]

/-- Witness for C4: the roundtrip at the concrete code 200 and length 12. -/
theorem parseFixed16Header_encode_roundtrip_witness :
    parseFixed16Header (encodeFixed16 200 12) = some ((200 : Int), (12 : Int)) :=
  parseFixed16Header_encode_roundtrip 200 12 (by decide) (by decide)

/-- C5: parseFixed16Header errs exactly when the input is not 16 bytes or a
trimmed digit field fails to parse; bytes 3 and 15 are not enforced; the
claim's concrete examples evaluate as stated. -/
theorem parseFixed16Header_error_characterisation :
    (∀ hdr : Str, parseFixed16Header hdr = none ↔
      (hdr.length ≠ 16 ∨ atoi (trimSpace (hdr.take 3)) = none ∨
        atoi (trimSpace ((hdr.drop 4).take 11)) = none)) ∧
    parseFixed16Header (str "200 00000000012\n") = some (200, 12) ∧
    parseFixed16Header (str "404 00000000005\n") = some (404, 5) ∧
    parseFixed16Header (str "200 0000000001\n") = none ∧
    parseFixed16Header (str "2X0 0000000001\n") = none ∧
    parseFixed16Header (str "200#00000000012#") = some (200, 12) := by
  refine ⟨fun hdr => ?_, by decide, by decide, by decide, by decide, by decide⟩
  by_cases hlen : hdr.length = 16
  · rcases h1 : atoi (trimSpace (hdr.take 3)) with _ | c <;>
      rcases h2 : atoi (trimSpace ((hdr.drop 4).take 11)) with _ | v <;>
      simp [parseFixed16Header, hlen, h1, h2]
  · simp [parseFixed16Header, hlen]

/-- C6: Header strips one trailing colon from the key, then trims the key's
surrounding whitespace; an empty key leaves the builder unchanged; an empty
value renders `Key:` with no trailing space; otherwise `Key: <safeValue>`;
together with the claim's concrete examples. -/
theorem header_key_normalisation :
    (∀ (q : LiveStatusQuery) (key value : Str),
      q.Header key value =
        (let k := trimSpace (trimSuffixColon key)
         if k = [] then q
         else if value = [] then
           { q with headers := q.headers ++ [k ++ [':']] }
         else
           { q with headers := q.headers ++ [k ++ str ": " ++ safeValue value] })) ∧
    ((newLiveStatusQuery (str "services") [str "host_name"]).Header
      (str "Stats:    ") (str "state = 2")).headers = [str "Stats:: state = 2"] ∧
    ((newLiveStatusQuery (str "services") [str "host_name"]).Header
      (str "Localtime") (str "1724000000\n")).headers =
        [str "Localtime: 1724000000 "] ∧
    ((newLiveStatusQuery (str "services") [str "host_name"]).Header
      (str "WeirdEmpty") []).headers = [str "WeirdEmpty:"] ∧
    ((newLiveStatusQuery (str "services") [str "host_name"]).Header
      (str ":") (str "v")) = newLiveStatusQuery (str "services") [str "host_name"] :=
  ⟨fun _ _ _ => rfl, by decide, by decide, by decide, by decide⟩

/-- C8: QueryOneOff returns a function-level error exactly for a nil
config; with a config, every phase failure yields `Result{500, nil, err}`
and a successful read yields `Result{200, body, nil}`. -/
theorem queryOneOff_error_contract :
    (∀ net : OneOffNet, QueryOneOff none net = .error (str "config cannot be nil")) ∧
    (∀ (cfg : LiveStatusConfig) (net : OneOffNet), ∃ r : Result,
      QueryOneOff (some cfg) net = .ok r ∧
      r.statusCode = (if net.allOk then 200 else 500) ∧
      (if net.allOk then
        ∃ b, net.readRes = .ok b ∧ r.data = some b ∧ r.error = none
       else r.data = none ∧ r.error ≠ none)) := by
  refine ⟨fun net => rfl, fun cfg net => ?_⟩
  obtain ⟨cr, sr, rr⟩ := net
  rcases cr with e | _ <;> rcases sr with e' | _ <;> rcases rr with e'' | body <;>
    simp [QueryOneOff, OneOffNet.allOk]

/-- C9 counterexample: serialising an event in the Unknown state renders the
state as `unknown_state_0`, not as the lower-case name `unknown`. -/
theorem connectivity_unknown_state_counterexample :
    stateString StateUnknown = str "unknown_state_0" ∧
    stateString StateUnknown ≠ str "unknown" ∧
    (toJSONRecord ⟨[], StateUnknown, [], [], 0, 0, none⟩).state ≠ str "unknown" := by
  decide

/-- C9 (amended): the event serialisation renders Connected, Disconnected,
Retrying and Shutdown as their lower-case names and Unknown as
`unknown_state_<code>`; `actor`, `reason`, `attempt`, `error` and `backoff`
keys are present exactly when non-empty / non-zero, while `state` and
`time` are always present. -/
theorem connectivity_event_serialisation :
    (stateString StateConnected = str "connected" ∧
     stateString StateDisconnected = str "disconnected" ∧
     stateString StateRetrying = str "retrying" ∧
     stateString StateShutdown = str "shutdown" ∧
     stateString StateUnknown = str "unknown_state_0") ∧
    (∀ e : ConnectivityEvent,
      (toJSONRecord e).state = stateString e.state ∧
      str "state" ∈ jsonKeys e ∧
      str "time" ∈ jsonKeys e ∧
      (str "actor" ∈ jsonKeys e ↔ e.actor ≠ []) ∧
      (str "reason" ∈ jsonKeys e ↔ e.reason ≠ []) ∧
      (str "attempt" ∈ jsonKeys e ↔ e.attempt ≠ 0) ∧
      (str "error" ∈ jsonKeys e ↔ ∃ m, e.err = some m ∧ m ≠ []) ∧
      (str "backoff" ∈ jsonKeys e ↔ 0 < e.backoff)) := by
  refine ⟨by decide, fun e => ?_⟩
  obtain ⟨a, st, tm, rs, att, bo, er⟩ := e
  refine ⟨rfl, ?_, ?_, ?_, ?_, ?_, ?_, ?_⟩ <;>
    rcases er with _ | m <;>
    simp +decide [jsonKeys, toJSONRecord]

/-! ### Store lemmas -/

theorem slicePush_bheap (ip : Bool) (σ : Store) (s : SliceRef) (xs : List Str) :
    (slicePush ip σ s xs).1.bheap = σ.bheap := by
  rcases ip <;> rfl

theorem slicePush_next (ip : Bool) (σ : Store) (s : SliceRef) (xs : List Str) :
    σ.next ≤ (slicePush ip σ s xs).1.next := by
  rcases ip <;> simp [slicePush, Store.setArr, Store.alloc]

theorem slicePush_len (ip : Bool) (σ : Store) (s : SliceRef) (xs : List Str) :
    (slicePush ip σ s xs).2.len = s.len + xs.length := by
  rcases ip <;> rfl

theorem slicePush_arr (ip : Bool) (σ : Store) (s : SliceRef) (xs : List Str) :
    (slicePush ip σ s xs).2.arr = s.arr ∨ (slicePush ip σ s xs).2.arr = σ.next := by
  rcases ip <;> simp [slicePush, Store.alloc]

theorem slicePush_arr_lt (ip : Bool) (σ : Store) (s : SliceRef) (xs : List Str)
    (h : s.arr < σ.next) :
    (slicePush ip σ s xs).2.arr < (slicePush ip σ s xs).1.next := by
  rcases ip <;> simp [slicePush, Store.setArr, Store.alloc] <;> omega

theorem slicePush_sheap_other (ip : Bool) (σ : Store) (s : SliceRef)
    (xs : List Str) {a : Nat} (ha : a ≠ s.arr) (hlt : a < σ.next) :
    (slicePush ip σ s xs).1.sheap a = σ.sheap a := by
  rcases ip <;> simp [slicePush, Store.setArr, Store.alloc, ha, Nat.ne_of_lt hlt]

theorem slicePush_take (ip : Bool) (σ : Store) (s : SliceRef) (xs : List Str)
    {m : Nat} (hm : m ≤ s.len) (hwf : s.len ≤ (σ.sheap s.arr).length)
    (harr : s.arr < σ.next) :
    ((slicePush ip σ s xs).1.sheap s.arr).take m = (σ.sheap s.arr).take m := by
  rcases ip with _ | _
  · simp only [slicePush, Store.alloc, Bool.false_eq_true, if_false]
    simp [Nat.ne_of_lt harr]
  · simp only [slicePush, if_true, Store.setArr]
    have h1 : m ≤ ((σ.sheap s.arr).take s.len).length := by
      simp [List.length_take]
      omega
    rw [List.take_append_of_le_length (by simp [List.length_take] <;> omega),
      List.take_append_of_le_length h1, List.take_take]
    congr 1
    omega

theorem slicePush_view (ip : Bool) (σ : Store) (s : SliceRef) (xs : List Str)
    (hwf : s.len ≤ (σ.sheap s.arr).length) :
    (slicePush ip σ s xs).1.view (slicePush ip σ s xs).2 = σ.view s ++ xs := by
  rcases ip with _ | _
  · simp only [slicePush, Bool.false_eq_true, if_false, Store.alloc, Store.view]
    rw [List.take_of_length_le (by simp [List.length_take] <;> omega)]
    simp
  · simp only [slicePush, if_true, Store.setArr, Store.view]
    rw [List.take_append_of_le_length (by simp [List.length_take] <;> omega),
      List.take_of_length_le (by simp [List.length_take] <;> omega)]

theorem slicePush_wf (ip : Bool) (σ : Store) (s : SliceRef) (xs : List Str)
    (hwf : s.len ≤ (σ.sheap s.arr).length) :
    (slicePush ip σ s xs).2.len ≤
      ((slicePush ip σ s xs).1.sheap (slicePush ip σ s xs).2.arr).length := by
  rcases ip with _ | _
  · simp [slicePush, Store.alloc, Store.view, List.length_take]
    omega
  · simp [slicePush, Store.setArr, List.length_take]
    omega

theorem slicePush_sheap_le (ip : Bool) (σ : Store) (s : SliceRef) (xs : List Str)
    {a : Nat} (ha : a < σ.next) :
    (σ.sheap a).length ≤ ((slicePush ip σ s xs).1.sheap a).length := by
  rcases ip with _ | _
  · simp [slicePush, Store.alloc, Nat.ne_of_lt ha]
  · by_cases has : a = s.arr
    · subst has
      simp [slicePush, Store.setArr, List.length_take]
      omega
    · simp [slicePush, Store.setArr, has]

/-! ### Snapshot invariants -/

/-- The array identifier does not belong to any of the snapshot's three
slices. -/
def NotSnapArr (snap : QRef) (a : Nat) : Prop :=
  a ≠ snap.columns.arr ∧ a ≠ snap.filters.arr ∧ a ≠ snap.headers.arr

/-- The caller's slice for one field either still aliases the snapshot's
backing array with at least the snapshot's length, or points away from all
snapshot arrays. -/
def FieldOK (snap : QRef) (own c : SliceRef) : Prop :=
  (c.arr = own.arr ∧ own.len ≤ c.len) ∨ NotSnapArr snap c.arr

/-- Invariant tying the caller's evolving builder to the snapshot. -/
structure Good (snap : QRef) (σ : Store) (c : QRef) : Prop where
  distinct_cf : snap.columns.arr ≠ snap.filters.arr
  distinct_ch : snap.columns.arr ≠ snap.headers.arr
  distinct_fh : snap.filters.arr ≠ snap.headers.arr
  snap_cols_lt : snap.columns.arr < σ.next
  snap_filt_lt : snap.filters.arr < σ.next
  snap_hdrs_lt : snap.headers.arr < σ.next
  snap_cell_lt : ∀ b, snap.columnHdrs = some b → b < σ.next
  ok_cols : FieldOK snap snap.columns c.columns
  ok_filt : FieldOK snap snap.filters c.filters
  ok_hdrs : FieldOK snap snap.headers c.headers
  c_cols_lt : c.columns.arr < σ.next
  c_filt_lt : c.filters.arr < σ.next
  c_hdrs_lt : c.headers.arr < σ.next
  wf_cols : c.columns.len ≤ (σ.sheap c.columns.arr).length
  wf_filt : c.filters.len ≤ (σ.sheap c.filters.arr).length
  wf_hdrs : c.headers.len ≤ (σ.sheap c.headers.arr).length

/-- The snapshot observes the same slice contents and bool cell in both
stores. -/
def ViewsEq (snap : QRef) (σ σ' : Store) : Prop :=
  σ'.view snap.columns = σ.view snap.columns ∧
  σ'.view snap.filters = σ.view snap.filters ∧
  σ'.view snap.headers = σ.view snap.headers ∧
  ∀ b, snap.columnHdrs = some b → σ'.bheap b = σ.bheap b

theorem ViewsEq.refl (snap : QRef) (σ : Store) : ViewsEq snap σ σ :=
  ⟨rfl, rfl, rfl, fun _ _ => rfl⟩

theorem ViewsEq.trans {snap : QRef} {σ₁ σ₂ σ₃ : Store}
    (h1 : ViewsEq snap σ₁ σ₂) (h2 : ViewsEq snap σ₂ σ₃) : ViewsEq snap σ₁ σ₃ :=
  ⟨h2.1.trans h1.1, h2.2.1.trans h1.2.1, h2.2.2.1.trans h1.2.2.1,
   fun b hb => (h2.2.2.2 b hb).trans (h1.2.2.2 b hb)⟩

theorem buildOfViews_congr {snap : QRef} {σ σ' : Store}
    (h : ViewsEq snap σ σ') : buildOfViews σ' snap = buildOfViews σ snap := by
  unfold buildOfViews toQuery
  rw [h.1, h.2.1, h.2.2.1]
  rcases hb : snap.columnHdrs with _ | b
  · rfl
  · simp only [Option.map_some']
    rw [h.2.2.2 b hb]

/-- Preservation of the snapshot invariant by a push on the caller's
`filters` slice. -/
theorem pushFilters_pres {snap : QRef} {σ : Store} {c : QRef} (ip : Bool)
    (line : Str) (h : Good snap σ c) :
    Good snap (pushFilters ip σ c line).1 (pushFilters ip σ c line).2 ∧
      ViewsEq snap σ (pushFilters ip σ c line).1 := by
  have hnext := slicePush_next ip σ c.filters [line]
  have hbh := slicePush_bheap ip σ c.filters [line]
  have hviews : ViewsEq snap σ (pushFilters ip σ c line).1 := by
    refine ⟨?_, ?_, ?_, ?_⟩
    · rcases h.ok_filt with ⟨heq, _⟩ | ⟨hne, _, _⟩
      · have : snap.columns.arr ≠ c.filters.arr := heq ▸ h.distinct_cf
        unfold pushFilters Store.view
        rw [slicePush_sheap_other ip σ c.filters [line] this.symm.symm h.snap_cols_lt]
      · unfold pushFilters Store.view
        rw [slicePush_sheap_other ip σ c.filters [line] (Ne.symm hne) h.snap_cols_lt]
    · rcases h.ok_filt with ⟨heq, hlen⟩ | ⟨_, hne, _⟩
      · unfold pushFilters Store.view
        rw [← heq]
        exact slicePush_take ip σ c.filters [line] hlen h.wf_filt h.c_filt_lt
      · unfold pushFilters Store.view
        rw [slicePush_sheap_other ip σ c.filters [line] (Ne.symm hne) h.snap_filt_lt]
    · rcases h.ok_filt with ⟨heq, _⟩ | ⟨_, _, hne⟩
      · have : snap.headers.arr ≠ c.filters.arr := heq ▸ (Ne.symm h.distinct_fh)
        unfold pushFilters Store.view
        rw [slicePush_sheap_other ip σ c.filters [line] this.symm.symm h.snap_hdrs_lt]
      · unfold pushFilters Store.view
        rw [slicePush_sheap_other ip σ c.filters [line] (Ne.symm hne) h.snap_hdrs_lt]
    · intro b hb
      unfold pushFilters
      rw [hbh]
  refine ⟨?_, hviews⟩
  refine
    { distinct_cf := h.distinct_cf
      distinct_ch := h.distinct_ch
      distinct_fh := h.distinct_fh
      snap_cols_lt := lt_of_lt_of_le h.snap_cols_lt hnext
      snap_filt_lt := lt_of_lt_of_le h.snap_filt_lt hnext
      snap_hdrs_lt := lt_of_lt_of_le h.snap_hdrs_lt hnext
      snap_cell_lt := fun b hb => lt_of_lt_of_le (h.snap_cell_lt b hb) hnext
      ok_cols := h.ok_cols
      ok_filt := ?_
      ok_hdrs := h.ok_hdrs
      c_cols_lt := lt_of_lt_of_le h.c_cols_lt hnext
      c_filt_lt := slicePush_arr_lt ip σ c.filters [line] h.c_filt_lt
      c_hdrs_lt := lt_of_lt_of_le h.c_hdrs_lt hnext
      wf_cols := le_trans h.wf_cols (slicePush_sheap_le ip σ c.filters [line] h.c_cols_lt)
      wf_filt := slicePush_wf ip σ c.filters [line] h.wf_filt
      wf_hdrs := le_trans h.wf_hdrs (slicePush_sheap_le ip σ c.filters [line] h.c_hdrs_lt) }
  rcases slicePush_arr ip σ c.filters [line] with harr | harr
  · rcases h.ok_filt with ⟨heq, hlen⟩ | ⟨h1, h2, h3⟩
    · refine Or.inl ⟨harr.trans heq, le_trans hlen ?_⟩
      rw [show (pushFilters ip σ c line).2.filters =
        (slicePush ip σ c.filters [line]).2 from rfl, slicePush_len]
      omega
    · exact Or.inr ⟨harr ▸ h1, harr ▸ h2, harr ▸ h3⟩
  · exact Or.inr ⟨harr ▸ Nat.ne_of_gt h.snap_cols_lt,
      harr ▸ Nat.ne_of_gt h.snap_filt_lt, harr ▸ Nat.ne_of_gt h.snap_hdrs_lt⟩

/-- Preservation of the snapshot invariant by a push on the caller's
`headers` slice. -/
theorem pushHeaders_pres {snap : QRef} {σ : Store} {c : QRef} (ip : Bool)
    (line : Str) (h : Good snap σ c) :
    Good snap (pushHeaders ip σ c line).1 (pushHeaders ip σ c line).2 ∧
      ViewsEq snap σ (pushHeaders ip σ c line).1 := by
  have hnext := slicePush_next ip σ c.headers [line]
  have hbh := slicePush_bheap ip σ c.headers [line]
  have hviews : ViewsEq snap σ (pushHeaders ip σ c line).1 := by
    refine ⟨?_, ?_, ?_, ?_⟩
    · rcases h.ok_hdrs with ⟨heq, _⟩ | ⟨hne, _, _⟩
      · have : snap.columns.arr ≠ c.headers.arr := heq ▸ h.distinct_ch
        unfold pushHeaders Store.view
        rw [slicePush_sheap_other ip σ c.headers [line] this.symm.symm h.snap_cols_lt]
      · unfold pushHeaders Store.view
        rw [slicePush_sheap_other ip σ c.headers [line] (Ne.symm hne) h.snap_cols_lt]
    · rcases h.ok_hdrs with ⟨heq, _⟩ | ⟨_, hne, _⟩
      · have : snap.filters.arr ≠ c.headers.arr := heq ▸ h.distinct_fh
        unfold pushHeaders Store.view
        rw [slicePush_sheap_other ip σ c.headers [line] this.symm.symm h.snap_filt_lt]
      · unfold pushHeaders Store.view
        rw [slicePush_sheap_other ip σ c.headers [line] (Ne.symm hne) h.snap_filt_lt]
    · rcases h.ok_hdrs with ⟨heq, hlen⟩ | ⟨_, _, hne⟩
      · unfold pushHeaders Store.view
        rw [← heq]
        exact slicePush_take ip σ c.headers [line] hlen h.wf_hdrs h.c_hdrs_lt
      · unfold pushHeaders Store.view
        rw [slicePush_sheap_other ip σ c.headers [line] (Ne.symm hne) h.snap_hdrs_lt]
    · intro b hb
      unfold pushHeaders
      rw [hbh]
  refine ⟨?_, hviews⟩
  refine
    { distinct_cf := h.distinct_cf
      distinct_ch := h.distinct_ch
      distinct_fh := h.distinct_fh
      snap_cols_lt := lt_of_lt_of_le h.snap_cols_lt hnext
      snap_filt_lt := lt_of_lt_of_le h.snap_filt_lt hnext
      snap_hdrs_lt := lt_of_lt_of_le h.snap_hdrs_lt hnext
      snap_cell_lt := fun b hb => lt_of_lt_of_le (h.snap_cell_lt b hb) hnext
      ok_cols := h.ok_cols
      ok_filt := h.ok_filt
      ok_hdrs := ?_
      c_cols_lt := lt_of_lt_of_le h.c_cols_lt hnext
      c_filt_lt := lt_of_lt_of_le h.c_filt_lt hnext
      c_hdrs_lt := slicePush_arr_lt ip σ c.headers [line] h.c_hdrs_lt
      wf_cols := le_trans h.wf_cols (slicePush_sheap_le ip σ c.headers [line] h.c_cols_lt)
      wf_filt := le_trans h.wf_filt (slicePush_sheap_le ip σ c.headers [line] h.c_filt_lt)
      wf_hdrs := slicePush_wf ip σ c.headers [line] h.wf_hdrs }
  rcases slicePush_arr ip σ c.headers [line] with harr | harr
  · rcases h.ok_hdrs with ⟨heq, hlen⟩ | ⟨h1, h2, h3⟩
    · refine Or.inl ⟨harr.trans heq, le_trans hlen ?_⟩
      rw [show (pushHeaders ip σ c line).2.headers =
        (slicePush ip σ c.headers [line]).2 from rfl, slicePush_len]
      omega
    · exact Or.inr ⟨harr ▸ h1, harr ▸ h2, harr ▸ h3⟩
  · exact Or.inr ⟨harr ▸ Nat.ne_of_gt h.snap_cols_lt,
      harr ▸ Nat.ne_of_gt h.snap_filt_lt, harr ▸ Nat.ne_of_gt h.snap_hdrs_lt⟩

/-- Preservation of the snapshot invariant by a push on the caller's
`columns` slice. -/
theorem pushColumns_pres {snap : QRef} {σ : Store} {c : QRef} (ip : Bool)
    (cols : List Str) (h : Good snap σ c) :
    Good snap (pushColumns ip σ c cols).1 (pushColumns ip σ c cols).2 ∧
      ViewsEq snap σ (pushColumns ip σ c cols).1 := by
  have hnext := slicePush_next ip σ c.columns cols
  have hbh := slicePush_bheap ip σ c.columns cols
  have hviews : ViewsEq snap σ (pushColumns ip σ c cols).1 := by
    refine ⟨?_, ?_, ?_, ?_⟩
    · rcases h.ok_cols with ⟨heq, hlen⟩ | ⟨hne, _, _⟩
      · unfold pushColumns Store.view
        rw [← heq]
        exact slicePush_take ip σ c.columns cols hlen h.wf_cols h.c_cols_lt
      · unfold pushColumns Store.view
        rw [slicePush_sheap_other ip σ c.columns cols (Ne.symm hne) h.snap_cols_lt]
    · rcases h.ok_cols with ⟨heq, _⟩ | ⟨_, hne, _⟩
      · have : snap.filters.arr ≠ c.columns.arr := heq ▸ (Ne.symm h.distinct_cf)
        unfold pushColumns Store.view
        rw [slicePush_sheap_other ip σ c.columns cols this.symm.symm h.snap_filt_lt]
      · unfold pushColumns Store.view
        rw [slicePush_sheap_other ip σ c.columns cols (Ne.symm hne) h.snap_filt_lt]
    · rcases h.ok_cols with ⟨heq, _⟩ | ⟨_, _, hne⟩
      · have : snap.headers.arr ≠ c.columns.arr := heq ▸ (Ne.symm h.distinct_ch)
        unfold pushColumns Store.view
        rw [slicePush_sheap_other ip σ c.columns cols this.symm.symm h.snap_hdrs_lt]
      · unfold pushColumns Store.view
        rw [slicePush_sheap_other ip σ c.columns cols (Ne.symm hne) h.snap_hdrs_lt]
    · intro b hb
      unfold pushColumns
      rw [hbh]
  refine ⟨?_, hviews⟩
  refine
    { distinct_cf := h.distinct_cf
      distinct_ch := h.distinct_ch
      distinct_fh := h.distinct_fh
      snap_cols_lt := lt_of_lt_of_le h.snap_cols_lt hnext
      snap_filt_lt := lt_of_lt_of_le h.snap_filt_lt hnext
      snap_hdrs_lt := lt_of_lt_of_le h.snap_hdrs_lt hnext
      snap_cell_lt := fun b hb => lt_of_lt_of_le (h.snap_cell_lt b hb) hnext
      ok_cols := ?_
      ok_filt := h.ok_filt
      ok_hdrs := h.ok_hdrs
      c_cols_lt := slicePush_arr_lt ip σ c.columns cols h.c_cols_lt
      c_filt_lt := lt_of_lt_of_le h.c_filt_lt hnext
      c_hdrs_lt := lt_of_lt_of_le h.c_hdrs_lt hnext
      wf_cols := slicePush_wf ip σ c.columns cols h.wf_cols
      wf_filt := le_trans h.wf_filt (slicePush_sheap_le ip σ c.columns cols h.c_filt_lt)
      wf_hdrs := le_trans h.wf_hdrs (slicePush_sheap_le ip σ c.columns cols h.c_hdrs_lt) }
  rcases slicePush_arr ip σ c.columns cols with harr | harr
  · rcases h.ok_cols with ⟨heq, hlen⟩ | ⟨h1, h2, h3⟩
    · refine Or.inl ⟨harr.trans heq, le_trans hlen ?_⟩
      rw [show (pushColumns ip σ c cols).2.columns =
        (slicePush ip σ c.columns cols).2 from rfl, slicePush_len]
      omega
    · exact Or.inr ⟨harr ▸ h1, harr ▸ h2, harr ▸ h3⟩
  · exact Or.inr ⟨harr ▸ Nat.ne_of_gt h.snap_cols_lt,
      harr ▸ Nat.ne_of_gt h.snap_filt_lt, harr ▸ Nat.ne_of_gt h.snap_hdrs_lt⟩

theorem alloc_sheap_other {σ : Store} {v : List Str} {a : Nat}
    (ha : a < σ.next) : (σ.alloc v).1.sheap a = σ.sheap a := by
  simp [Store.alloc, Nat.ne_of_lt ha]

theorem alloc_sheap_new (σ : Store) (v : List Str) :
    (σ.alloc v).1.sheap σ.next = v := by
  simp [Store.alloc]

/-- Preservation of the snapshot invariant by `Columns` (a fresh clone of
the argument slice). -/
theorem setColumns_pres {snap : QRef} {σ : Store} {c : QRef}
    (cols : List Str) (h : Good snap σ c) :
    Good snap (σ.alloc cols).1
        { c with columns := ⟨(σ.alloc cols).2, cols.length⟩ } ∧
      ViewsEq snap σ (σ.alloc cols).1 := by
  have hviews : ViewsEq snap σ (σ.alloc cols).1 := by
    refine ⟨?_, ?_, ?_, fun b hb => rfl⟩ <;>
      · unfold Store.view
        rw [alloc_sheap_other]
        first
          | exact h.snap_cols_lt
          | exact h.snap_filt_lt
          | exact h.snap_hdrs_lt
  refine ⟨?_, hviews⟩
  have hnext : (σ.alloc cols).1.next = σ.next + 1 := rfl
  refine
    { distinct_cf := h.distinct_cf
      distinct_ch := h.distinct_ch
      distinct_fh := h.distinct_fh
      snap_cols_lt := by rw [hnext]; exact lt_trans h.snap_cols_lt (by omega)
      snap_filt_lt := by rw [hnext]; exact lt_trans h.snap_filt_lt (by omega)
      snap_hdrs_lt := by rw [hnext]; exact lt_trans h.snap_hdrs_lt (by omega)
      snap_cell_lt := fun b hb => by
        rw [hnext]; exact lt_trans (h.snap_cell_lt b hb) (by omega)
      ok_cols := Or.inr ⟨Nat.ne_of_gt h.snap_cols_lt,
        Nat.ne_of_gt h.snap_filt_lt, Nat.ne_of_gt h.snap_hdrs_lt⟩
      ok_filt := h.ok_filt
      ok_hdrs := h.ok_hdrs
      c_cols_lt := Nat.lt_succ_self σ.next
      c_filt_lt := by rw [hnext]; exact lt_trans h.c_filt_lt (by omega)
      c_hdrs_lt := by rw [hnext]; exact lt_trans h.c_hdrs_lt (by omega)
      wf_cols := by
        show cols.length ≤ ((σ.alloc cols).1.sheap σ.next).length
        rw [alloc_sheap_new]
      wf_filt := by
        show c.filters.len ≤ ((σ.alloc cols).1.sheap c.filters.arr).length
        rw [alloc_sheap_other h.c_filt_lt]
        exact h.wf_filt
      wf_hdrs := by
        show c.headers.len ≤ ((σ.alloc cols).1.sheap c.headers.arr).length
        rw [alloc_sheap_other h.c_hdrs_lt]
        exact h.wf_hdrs }

/-- Preservation of the snapshot invariant by `ColumnHeaders` (a fresh bool
cell). -/
theorem setColumnHdrs_pres {snap : QRef} {σ : Store} {c : QRef}
    (b : Bool) (h : Good snap σ c) :
    Good snap (σ.balloc b).1 { c with columnHdrs := some (σ.balloc b).2 } ∧
      ViewsEq snap σ (σ.balloc b).1 := by
  have hviews : ViewsEq snap σ (σ.balloc b).1 := by
    refine ⟨rfl, rfl, rfl, fun cell hcell => ?_⟩
    have : cell < σ.next := h.snap_cell_lt cell hcell
    simp [Store.balloc, Nat.ne_of_lt this]
  refine ⟨?_, hviews⟩
  have hnext : (σ.balloc b).1.next = σ.next + 1 := rfl
  refine
    { distinct_cf := h.distinct_cf
      distinct_ch := h.distinct_ch
      distinct_fh := h.distinct_fh
      snap_cols_lt := by rw [hnext]; exact lt_trans h.snap_cols_lt (by omega)
      snap_filt_lt := by rw [hnext]; exact lt_trans h.snap_filt_lt (by omega)
      snap_hdrs_lt := by rw [hnext]; exact lt_trans h.snap_hdrs_lt (by omega)
      snap_cell_lt := fun cell hcell => by
        rw [hnext]; exact lt_trans (h.snap_cell_lt cell hcell) (by omega)
      ok_cols := h.ok_cols
      ok_filt := h.ok_filt
      ok_hdrs := h.ok_hdrs
      c_cols_lt := by rw [hnext]; exact lt_trans h.c_cols_lt (by omega)
      c_filt_lt := by rw [hnext]; exact lt_trans h.c_filt_lt (by omega)
      c_hdrs_lt := by rw [hnext]; exact lt_trans h.c_hdrs_lt (by omega)
      wf_cols := h.wf_cols
      wf_filt := h.wf_filt
      wf_hdrs := h.wf_hdrs }

/-- A pure field update leaves the invariant intact. -/
theorem pure_update_pres {snap : QRef} {σ : Store} {c c' : QRef}
    (h : Good snap σ c) (hc : c'.columns = c.columns)
    (hf : c'.filters = c.filters) (hh : c'.headers = c.headers) :
    Good snap σ c' :=
  { distinct_cf := h.distinct_cf
    distinct_ch := h.distinct_ch
    distinct_fh := h.distinct_fh
    snap_cols_lt := h.snap_cols_lt
    snap_filt_lt := h.snap_filt_lt
    snap_hdrs_lt := h.snap_hdrs_lt
    snap_cell_lt := h.snap_cell_lt
    ok_cols := hc ▸ h.ok_cols
    ok_filt := hf ▸ h.ok_filt
    ok_hdrs := hh ▸ h.ok_hdrs
    c_cols_lt := hc ▸ h.c_cols_lt
    c_filt_lt := hf ▸ h.c_filt_lt
    c_hdrs_lt := hh ▸ h.c_hdrs_lt
    wf_cols := hc ▸ h.wf_cols
    wf_filt := hf ▸ h.wf_filt
    wf_hdrs := hh ▸ h.wf_hdrs }

/-- Every builder mutation preserves the snapshot's observations. -/
theorem stepOp_pres {snap : QRef} {σ : Store} {c : QRef} (op : BOp)
    (h : Good snap σ c) :
    Good snap (stepOp σ c op).1 (stepOp σ c op).2 ∧
      ViewsEq snap σ (stepOp σ c op).1 := by
  cases op with
  | columnsOp cols => exact setColumns_pres cols h
  | addColumnsOp ip cols => exact pushColumns_pres ip cols h
  | filterOp ip column o v => exact pushFilters_pres ip _ h
  | orOp ip n => exact pushFilters_pres ip _ h
  | andOp ip n => exact pushFilters_pres ip _ h
  | negateOp ip => exact pushFilters_pres ip _ h
  | limitOp ip n => exact pushHeaders_pres ip _ h
  | waitObjectOp ip v => exact pushHeaders_pres ip _ h
  | waitTriggerOp ip v => exact pushHeaders_pres ip _ h
  | waitConditionOp ip v => exact pushHeaders_pres ip _ h
  | waitTimeoutOp ip n => exact pushHeaders_pres ip _ h
  | keepAliveOp ip b => rcases b <;> exact pushHeaders_pres ip _ h
  | respFixed16Op ip => exact pushHeaders_pres ip _ h
  | respOffOp ip => exact pushHeaders_pres ip _ h
  | localtimeOp ip n => exact pushHeaders_pres ip _ h
  | headerOp ip key value =>
    simp only [stepOp]
    by_cases hk : trimSpace (trimSuffixColon key) = []
    · rw [if_pos hk]
      exact ⟨h, ViewsEq.refl snap σ⟩
    · rw [if_neg hk]
      by_cases hv : value = []
      · rw [if_pos hv]
        exact pushHeaders_pres ip _ h
      · rw [if_neg hv]
        exact pushHeaders_pres ip _ h
  | outputFormatOp f =>
    exact ⟨pure_update_pres h rfl rfl rfl, ViewsEq.refl snap σ⟩
  | columnHeadersOp b => exact setColumnHdrs_pres b h

/-- Running any sequence of builder mutations preserves the snapshot's
observations. -/
theorem runOps_pres {snap : QRef} (ops : List BOp) :
    ∀ {σ : Store} {c : QRef}, Good snap σ c →
      Good snap (runOps σ c ops).1 (runOps σ c ops).2 ∧
        ViewsEq snap σ (runOps σ c ops).1 := by
  induction ops with
  | nil => exact fun h => ⟨h, ViewsEq.refl snap _⟩
  | cons op rest ih =>
    intro σ c h
    simp only [runOps]
    obtain ⟨hg, hv⟩ := stepOp_pres op h
    obtain ⟨hg', hv'⟩ := ih hg
    exact ⟨hg', ViewsEq.trans hv hv'⟩

/-- A fresh snapshot of a well-formed builder satisfies the invariant. -/
theorem startWF_good {σ : Store} {q : QRef} (h : startWF σ q = true) :
    Good q σ q := by
  simp only [startWF, sliceWF, Bool.and_eq_true, decide_eq_true_eq] at h
  obtain ⟨⟨⟨⟨⟨⟨⟨⟨⟨h1, h2⟩, h3⟩, h4⟩, h5⟩, h6⟩, h7⟩, h8⟩, h9⟩, h10⟩ := h
  refine
    { distinct_cf := h1
      distinct_ch := h2
      distinct_fh := h3
      snap_cols_lt := h4
      snap_filt_lt := h5
      snap_hdrs_lt := h6
      snap_cell_lt := ?_
      ok_cols := Or.inl ⟨rfl, le_rfl⟩
      ok_filt := Or.inl ⟨rfl, le_rfl⟩
      ok_hdrs := Or.inl ⟨rfl, le_rfl⟩
      c_cols_lt := h4
      c_filt_lt := h5
      c_hdrs_lt := h6
      wf_cols := h8
      wf_filt := h9
      wf_hdrs := h10 }
  intro b hb
  rw [hb] at h7
  exact of_decide_eq_true h7

/-- C7: the work-item snapshot is immune to later caller mutations — for
every well-formed builder in the store and every sequence of subsequent
builder mutations (with any in-place/fresh append behaviour), the
snapshot's `Build()` output is unchanged. -/
theorem workItem_snapshot_build_immune (σ : Store) (q : QRef)
    (ops : List BOp) (h : startWF σ q = true) :
    buildOfViews (runOps σ q ops).1 q = buildOfViews σ q := by
  obtain ⟨_, hv⟩ := runOps_pres ops (startWF_good h)
  exact buildOfViews_congr hv

/-- A concrete store for the frame-effect witnesses. -/
def demoStore : Store :=
  { sheap := fun i => if i = 0 then [str "name"] else []
    bheap := fun _ => false
    next := 3 }

/-- A concrete stored builder for the frame-effect witnesses. -/
def demoQ : QRef :=
  { table := str "hosts"
    columns := ⟨0, 1⟩
    filters := ⟨1, 0⟩
    headers := ⟨2, 0⟩
    outputFormat := []
    columnHdrs := none }

/-- Witness for C7: a concrete snapshot survives a concrete mutation
sequence that includes in-place appends, a column replacement, a
ColumnHeaders toggle and a header injection. -/
theorem workItem_snapshot_build_immune_witness :
    buildOfViews (runOps demoStore demoQ
        [BOp.filterOp true (str "state") (str "=") (str "2"),
         BOp.addColumnsOp true [str "x"],
         BOp.columnHeadersOp true,
         BOp.outputFormatOp (str "json"),
         BOp.headerOp false (str "Limit") (str "10")]).1 demoQ =
      buildOfViews demoStore demoQ :=
  workItem_snapshot_build_immune demoStore demoQ _ (by decide)

/-! ### Purity of Build against the store -/

/-- Invariant of the local `lines` slice during `buildS`: the store below
the initial frontier is untouched, the bool heap is untouched, and the
local slice lives entirely above the frontier. -/
def LocalInv (σ0 : Store) (st : Store × SliceRef × List Bool) : Prop :=
  (∀ a, a < σ0.next → st.1.sheap a = σ0.sheap a) ∧
  st.1.bheap = σ0.bheap ∧
  σ0.next ≤ st.1.next ∧
  σ0.next ≤ st.2.1.arr ∧
  st.2.1.arr < st.1.next ∧
  st.2.1.len ≤ (st.1.sheap st.2.1.arr).length

theorem LocalInv.read_view {σ0 : Store} {st : Store × SliceRef × List Bool}
    (h : LocalInv σ0 st) {s : SliceRef} (hs : s.arr < σ0.next) :
    st.1.view s = σ0.view s := by
  unfold Store.view
  rw [h.1 s.arr hs]

theorem init_inv (σ0 : Store) (ips : List Bool) :
    LocalInv σ0 ((σ0.alloc []).1, (⟨(σ0.alloc []).2, 0⟩ : SliceRef), ips) := by
  refine ⟨fun a ha => alloc_sheap_other ha, rfl, ?_, ?_, ?_, ?_⟩
  · show σ0.next ≤ σ0.next + 1
    omega
  · exact le_rfl
  · show σ0.next < σ0.next + 1
    omega
  · exact Nat.zero_le _

theorem buildStep_pres {σ0 : Store} {st : Store × SliceRef × List Bool}
    (xs : List Str) (h : LocalInv σ0 st) :
    LocalInv σ0 (buildStep st xs) ∧
      (buildStep st xs).1.view (buildStep st xs).2.1 =
        st.1.view st.2.1 ++ xs := by
  obtain ⟨hsh, hbh, hnx, harr0, harr1, hwf⟩ := h
  simp only [buildStep]
  set c := pushChoice st.2.2 with hc
  have hview := slicePush_view c.1 st.1 st.2.1 xs hwf
  constructor
  · refine ⟨?_, ?_, ?_, ?_, ?_, ?_⟩
    · intro a ha
      rw [slicePush_sheap_other c.1 st.1 st.2.1 xs
        (by omega) (lt_of_lt_of_le ha hnx)]
      exact hsh a ha
    · rw [slicePush_bheap]
      exact hbh
    · exact le_trans hnx (slicePush_next c.1 st.1 st.2.1 xs)
    · rcases slicePush_arr c.1 st.1 st.2.1 xs with ha | ha
      · show σ0.next ≤ (slicePush c.1 st.1 st.2.1 xs).2.arr
        omega
      · show σ0.next ≤ (slicePush c.1 st.1 st.2.1 xs).2.arr
        omega
    · exact slicePush_arr_lt c.1 st.1 st.2.1 xs harr1
    · exact slicePush_wf c.1 st.1 st.2.1 xs hwf
  · exact hview

/-- The ColumnHeaders lines of the pure Build agree with the conditional
line `buildS` pushes. -/
theorem chLines_eq (o : Option Nat) (β : Nat → Bool) :
    (match o.map β with
     | some true => [str "ColumnHeaders: on"]
     | some false => [str "ColumnHeaders: off"]
     | none => ([] : List Str)) =
      (match o with
       | some b => [if β b then str "ColumnHeaders: on"
                    else str "ColumnHeaders: off"]
       | none => []) := by
  rcases o with _ | b
  · rfl
  · rcases hb : β b <;> simp [hb]

/-- Full characterisation of `buildS`: the returned string is the pure
Build of the builder's views, and the store is modified only above the
allocation frontier. -/
theorem buildS_spec (σ0 : Store) (q : QRef) (ips : List Bool)
    (h : startWF σ0 q = true) :
    (buildS σ0 q ips).1 = buildOfViews σ0 q ∧
    (∀ a, a < σ0.next → (buildS σ0 q ips).2.sheap a = σ0.sheap a) ∧
    (buildS σ0 q ips).2.bheap = σ0.bheap ∧
    σ0.next ≤ (buildS σ0 q ips).2.next := by
  have hG := startWF_good h
  have hcols := hG.snap_cols_lt
  have hfilt := hG.snap_filt_lt
  have hhdrs := hG.snap_hdrs_lt
  simp only [buildS]
  have h1 := init_inv σ0 ips
  generalize hst1 : ((σ0.alloc []).1, (⟨(σ0.alloc []).2, 0⟩ : SliceRef), ips) = st1 at h1 ⊢
  have hv1 : st1.1.view st1.2.1 = [] := by
    rw [← hst1]
    rfl
  obtain ⟨h2, hv2⟩ := buildStep_pres [str "GET " ++ q.table] h1
  rw [hv1] at hv2
  generalize hst2 : buildStep st1 [str "GET " ++ q.table] = st2 at h2 hv2 ⊢
  rw [h2.read_view hcols]
  have h3 : LocalInv σ0
      (if (σ0.view q.columns).length > 0 then
        buildStep st2
          [str "Columns: " ++ joinSep [' '] (safeTokens (σ0.view q.columns))]
       else st2) ∧
      (if (σ0.view q.columns).length > 0 then
        buildStep st2
          [str "Columns: " ++ joinSep [' '] (safeTokens (σ0.view q.columns))]
       else st2).1.view
        (if (σ0.view q.columns).length > 0 then
          buildStep st2
            [str "Columns: " ++ joinSep [' '] (safeTokens (σ0.view q.columns))]
         else st2).2.1 =
        st2.1.view st2.2.1 ++
          (if (σ0.view q.columns).length > 0 then
            [str "Columns: " ++ joinSep [' '] (safeTokens (σ0.view q.columns))]
           else []) := by
    by_cases hcol : (σ0.view q.columns).length > 0
    · simp only [if_pos hcol]
      exact buildStep_pres _ h2
    · simp only [if_neg hcol, List.append_nil]
      exact ⟨h2, trivial⟩
  obtain ⟨h3i, hv3⟩ := h3
  rw [hv2] at hv3
  generalize hst3 :
    (if (σ0.view q.columns).length > 0 then
      buildStep st2
        [str "Columns: " ++ joinSep [' '] (safeTokens (σ0.view q.columns))]
     else st2) = st3 at h3i hv3 ⊢
  rw [h3i.read_view hfilt]
  obtain ⟨h4, hv4⟩ := buildStep_pres (σ0.view q.filters) h3i
  rw [hv3] at hv4
  generalize hst4 : buildStep st3 (σ0.view q.filters) = st4 at h4 hv4 ⊢
  simp only [show st4.1.bheap = σ0.bheap from h4.2.1]
  have h5 : LocalInv σ0
      (match q.columnHdrs with
       | some b =>
         buildStep st4
           [if σ0.bheap b then str "ColumnHeaders: on"
            else str "ColumnHeaders: off"]
       | none => st4) ∧
      (match q.columnHdrs with
       | some b =>
         buildStep st4
           [if σ0.bheap b then str "ColumnHeaders: on"
            else str "ColumnHeaders: off"]
       | none => st4).1.view
        (match q.columnHdrs with
         | some b =>
           buildStep st4
             [if σ0.bheap b then str "ColumnHeaders: on"
              else str "ColumnHeaders: off"]
         | none => st4).2.1 =
        st4.1.view st4.2.1 ++
          (match q.columnHdrs with
           | some b =>
             [if σ0.bheap b then str "ColumnHeaders: on"
              else str "ColumnHeaders: off"]
           | none => []) := by
    rcases hch : q.columnHdrs with _ | b
    · exact ⟨h4, by simp⟩
    · exact buildStep_pres _ h4
  obtain ⟨h5i, hv5⟩ := h5
  rw [hv4] at hv5
  generalize hst5 :
    (match q.columnHdrs with
     | some b =>
       buildStep st4
         [if σ0.bheap b then str "ColumnHeaders: on"
          else str "ColumnHeaders: off"]
     | none => st4) = st5 at h5i hv5 ⊢
  rw [h5i.read_view hhdrs]
  obtain ⟨h6, hv6⟩ := buildStep_pres (σ0.view q.headers) h5i
  rw [hv5] at hv6
  generalize hst6 : buildStep st5 (σ0.view q.headers) = st6 at h6 hv6 ⊢
  have h7 : LocalInv σ0
      (if q.outputFormat ≠ [] then
        buildStep st6 [str "OutputFormat: " ++ q.outputFormat]
       else st6) ∧
      (if q.outputFormat ≠ [] then
        buildStep st6 [str "OutputFormat: " ++ q.outputFormat]
       else st6).1.view
        (if q.outputFormat ≠ [] then
          buildStep st6 [str "OutputFormat: " ++ q.outputFormat]
         else st6).2.1 =
        st6.1.view st6.2.1 ++
          (if q.outputFormat ≠ [] then
            [str "OutputFormat: " ++ q.outputFormat]
           else []) := by
    by_cases hof : q.outputFormat ≠ []
    · simp only [if_pos hof]
      exact buildStep_pres _ h6
    · simp only [if_neg hof, List.append_nil]
      exact ⟨h6, trivial⟩
  obtain ⟨h7i, hv7⟩ := h7
  rw [hv6] at hv7
  generalize hst7 :
    (if q.outputFormat ≠ [] then
      buildStep st6 [str "OutputFormat: " ++ q.outputFormat]
     else st6) = st7 at h7i hv7 ⊢
  obtain ⟨h8, hv8⟩ := buildStep_pres [[]] h7i
  rw [hv7] at hv8
  generalize hst8 : buildStep st7 [[]] = st8 at h8 hv8 ⊢
  refine ⟨?_, fun a ha => h8.1 a ha, h8.2.1, h8.2.2.1⟩
  rw [hv8, buildOfViews, Build_eq_joinSep]
  congr 1
  rw [buildLines]
  simp only [toQuery, chLines_eq]
  simp [List.append_assoc]

/-- Builder well-formedness survives any store growth that leaves the
frontier below `σ.next` intact. -/
theorem startWF_mono {σ σ' : Store} {q : QRef} (h : startWF σ q = true)
    (hs : ∀ a, a < σ.next → σ'.sheap a = σ.sheap a) (hn : σ.next ≤ σ'.next) :
    startWF σ' q = true := by
  simp only [startWF, sliceWF, Bool.and_eq_true, decide_eq_true_eq] at h ⊢
  obtain ⟨⟨⟨⟨⟨⟨⟨⟨⟨h1, h2⟩, h3⟩, h4⟩, h5⟩, h6⟩, h7⟩, h8⟩, h9⟩, h10⟩ := h
  refine ⟨⟨⟨⟨⟨⟨⟨⟨⟨h1, h2⟩, h3⟩, by omega⟩, by omega⟩, by omega⟩, ?_⟩, ?_⟩, ?_⟩, ?_⟩
  · rcases hch : q.columnHdrs with _ | b
    · rfl
    · rw [hch] at h7
      have := of_decide_eq_true h7
      exact decide_eq_true (by omega)
  · rw [hs _ h4]
    exact h8
  · rw [hs _ h5]
    exact h9
  · rw [hs _ h6]
    exact h10

/-- C10: Build is observationally pure — run against the store, it returns
exactly the pure Build of the builder's views, it modifies neither the
builder's slices and bool cell nor anything else below the allocation
frontier, and a second Build with no intervening mutation returns the
identical string. -/
theorem build_observationally_pure (σ : Store) (q : QRef) (ips ips2 : List Bool)
    (h : startWF σ q = true) :
    (buildS σ q ips).1 = buildOfViews σ q ∧
    (∀ a, a < σ.next → (buildS σ q ips).2.sheap a = σ.sheap a) ∧
    (buildS σ q ips).2.bheap = σ.bheap ∧
    (buildS (buildS σ q ips).2 q ips2).1 = (buildS σ q ips).1 := by
  obtain ⟨hr, hs, hb, hn⟩ := buildS_spec σ q ips h
  refine ⟨hr, hs, hb, ?_⟩
  have h' : startWF (buildS σ q ips).2 q = true := startWF_mono h hs hn
  obtain ⟨hr2, _, _, _⟩ := buildS_spec _ q ips2 h'
  have hG := startWF_good h
  have hve : ViewsEq q σ (buildS σ q ips).2 := by
    refine ⟨?_, ?_, ?_, fun b hb' => by rw [hb]⟩
    · unfold Store.view
      rw [hs _ hG.snap_cols_lt]
    · unfold Store.view
      rw [hs _ hG.snap_filt_lt]
    · unfold Store.view
      rw [hs _ hG.snap_hdrs_lt]
  rw [hr2, hr, buildOfViews_congr hve]

/-- Witness for C10: a concrete store and builder for which a first Build
returns the pure rendering and a second Build returns the same string. -/
theorem build_observationally_pure_witness :
    ((buildS demoStore demoQ [true]).1 = buildOfViews demoStore demoQ) ∧
    ((buildS (buildS demoStore demoQ [true]).2 demoQ []).1 =
      (buildS demoStore demoQ [true]).1) :=
  ⟨(build_observationally_pure demoStore demoQ [true] [] (by decide)).1,
   (build_observationally_pure demoStore demoQ [true] [] (by decide)).2.2.2⟩

end Livestatus
